import Mathlib

set_option maxRecDepth 100000

/-!
Verification of the parsing-and-aggregation core of `src/app.py`
(`SpotifyHistory`): a shallow embedding of the pandas-based pipeline
(`pd.read_json` with a line-delimited fallback, column filtering,
`msPlayed` → minutes conversion, and the four aggregation queries),
together with proofs settling the specification claims.

Numeric model: the Python/pandas pipeline computes in IEEE-754 double
precision.  Doubles are embedded as dyadic rationals (`F`): an integer
significand times a power of two, with round-to-nearest-even to a 53-bit
significand after every arithmetic operation.  The model covers the
normal range (no overflow to infinity, no subnormal flushing, no NaN
payloads — none of which are reachable for the moderate magnitudes the
claims exercise); missing values (pandas NaN) are modelled as `Option.none`
one level up, never as an `F` value.
-/

/-- Bit length of a natural number (`0` for `0`), fuel-based so that it
reduces in the kernel.  `nbitsAux fuel n` halves `n` until it reaches `0`;
fuel `n + 1` always suffices. -/
def nbitsAux : Nat → Nat → Nat
  | 0, _ => 0
  | fuel + 1, n => if n = 0 then 0 else nbitsAux fuel (n / 2) + 1

/-- Bit length: `nbits n = ⌊log2 n⌋ + 1` for `n > 0`, and `nbits 0 = 0`. -/
def nbits (n : Nat) : Nat := nbitsAux (n + 1) n

/-- An IEEE-754 double embedded as a dyadic rational `num * 2 ^ exp`.
Values produced by the rounding function are canonical: either `⟨0, 0⟩`
or `2^52 ≤ |num| < 2^53`. -/
structure F where
  num : Int
  exp : Int
deriving DecidableEq, Repr

/-- The double `0.0`. -/
def F.zero : F := ⟨0, 0⟩

/-- Decides `n / b ≥ 2 ^ t` for naturals `n, b > 0` and an integer `t`. -/
def geTwoPow (n b : Nat) (t : Int) : Bool :=
  if 0 ≤ t then b * 2 ^ t.toNat ≤ n else b ≤ n * 2 ^ (-t).toNat

/-- Round-to-nearest-even of `n2 / d2` to an integer. -/
def rneDiv (n2 d2 : Nat) : Nat :=
  let fl := n2 / d2
  let r := n2 % d2
  if 2 * r < d2 then fl
  else if d2 < 2 * r then fl + 1
  else if fl % 2 = 0 then fl else fl + 1

/-- Significand (in `[2^52, 2^53)`) and exponent of the double nearest
to `n / b`, for `n, b > 0`. -/
def roundPos (n b : Nat) : Nat × Int :=
  let t : Int := (nbits n : Int) - (nbits b : Int)
  let e : Int := if geTwoPow n b t then t else t - 1
  let s : Int := 52 - e
  let n2 : Nat := if 0 ≤ s then n * 2 ^ s.toNat else n
  let d2 : Nat := if 0 ≤ s then b else b * 2 ^ (-s).toNat
  let m : Nat := rneDiv n2 d2
  if m = 2 ^ 53 then (2 ^ 52, e - 51) else (m, e - 52)

/-- Round the rational `a / b` (with `b > 0`) to the nearest IEEE-754
double, ties to even — the rounding every double operation performs.
The result is canonical: significand in `[2^52, 2^53)` (or zero). -/
def roundRat (a : Int) (b : Nat) : F :=
  if a.natAbs = 0 ∨ b = 0 then F.zero
  else
    let p := roundPos a.natAbs b
    if a < 0 then ⟨-(p.1 : Int), p.2⟩ else ⟨(p.1 : Int), p.2⟩

/-- Round the dyadic value `n * 2 ^ e` to the nearest double. -/
def roundDyadic (n : Int) (e : Int) : F :=
  if 0 ≤ e then roundRat (n * (2 ^ e.toNat : Nat)) 1 else roundRat n (2 ^ (-e).toNat)

/-- IEEE-754 double addition: exact dyadic sum, then one rounding. -/
def fadd (x y : F) : F :=
  let e := min x.exp y.exp
  roundDyadic (x.num * (2 ^ (x.exp - e).toNat : Nat) + y.num * (2 ^ (y.exp - e).toNat : Nat)) e

/-- IEEE-754 double division of a double by a positive integer that is
itself exactly representable (the pipeline only divides by `60000.0`). -/
def fdivInt (x : F) (d : Nat) : F :=
  if 0 ≤ x.exp then roundRat (x.num * (2 ^ x.exp.toNat : Nat)) d
  else roundRat x.num (d * 2 ^ (-x.exp).toNat)

/-- Convert the exact decimal `m * 10 ^ e10` (a parsed JSON number or a
Python `float()` result) to the nearest double. -/
def floatOfDec (m : Int) (e10 : Int) : F :=
  if 0 ≤ e10 then roundRat (m * ((10 : Nat) ^ e10.toNat : Nat)) 1
  else roundRat m (10 ^ (-e10).toNat)

/-- Python `int()` applied to a double: truncation toward zero. -/
def pyInt (f : F) : Int :=
  if 0 ≤ f.exp then f.num * (2 ^ f.exp.toNat : Nat)
  else Int.tdiv f.num (2 ^ (-f.exp).toNat)

/-- The exact rational value of a double. -/
def F.toRat (f : F) : ℚ := (f.num : ℚ) * (2 : ℚ) ^ f.exp

/-- Comparison `x ≤ y` of doubles, decided on the dyadic representation. -/
def F.ble (x y : F) : Bool :=
  let e := min x.exp y.exp
  x.num * (2 ^ (x.exp - e).toNat : Nat) ≤ y.num * (2 ^ (y.exp - e).toNat : Nat)


/-!
## JSON values and a character-level JSON parser

`pd.read_json` first decodes the buffer as JSON.  JSON numbers are kept
exact as decimal pairs `m * 10 ^ e10`; conversion to a double happens
where pandas converts data to a float column.  The parser models strict
JSON: the six value forms, string escapes (`\u` becomes a single code
point, surrogate pairs are not recombined), and no trailing data.
-/

inductive JVal where
  | null
  | jbool (b : Bool)
  | num (m : Int) (e10 : Int)
  | str (s : String)
  | arr (elems : List JVal)
  | obj (fields : List (String × JVal))

/-- JSON whitespace (also what Python strips from line ends). -/
def isWsC (c : Char) : Bool := c = ' ' ∨ c = '\t' ∨ c = '\n' ∨ c = '\r'

/-- Drop leading whitespace characters. -/
def skipWs : List Char → List Char
  | [] => []
  | c :: rest => if isWsC c then skipWs rest else c :: rest

/-- Value of a decimal digit character, if it is one. -/
def digitVal? (c : Char) : Option Nat :=
  if 48 ≤ c.toNat ∧ c.toNat ≤ 57 then some (c.toNat - 48) else none

/-- Value of a hexadecimal digit character, if it is one. -/
def hexVal? (c : Char) : Option Nat :=
  if 48 ≤ c.toNat ∧ c.toNat ≤ 57 then some (c.toNat - 48)
  else if 97 ≤ c.toNat ∧ c.toNat ≤ 102 then some (c.toNat - 87)
  else if 65 ≤ c.toNat ∧ c.toNat ≤ 70 then some (c.toNat - 55)
  else none

/-- Consume a (possibly empty) run of digits, returning the accumulated
value, the number of digits consumed, and the rest. -/
def takeDigits : List Char → Nat → Nat → (Nat × Nat × List Char)
  | [], v, n => (v, n, [])
  | c :: rest, v, n =>
    match digitVal? c with
    | some d => takeDigits rest (v * 10 + d) (n + 1)
    | none => (v, n, c :: rest)

/-- Parse the body of a JSON string after the opening quote, up to and
including the closing quote. -/
def parseStringBody : List Char → Option (List Char × List Char)
  | [] => none
  | '"' :: rest => some ([], rest)
  | '\\' :: esc => match esc with
    | '"' :: r => (parseStringBody r).map (fun p => ('"' :: p.1, p.2))
    | '\\' :: r => (parseStringBody r).map (fun p => ('\\' :: p.1, p.2))
    | '/' :: r => (parseStringBody r).map (fun p => ('/' :: p.1, p.2))
    | 'b' :: r => (parseStringBody r).map (fun p => (Char.ofNat 8 :: p.1, p.2))
    | 'f' :: r => (parseStringBody r).map (fun p => (Char.ofNat 12 :: p.1, p.2))
    | 'n' :: r => (parseStringBody r).map (fun p => (Char.ofNat 10 :: p.1, p.2))
    | 'r' :: r => (parseStringBody r).map (fun p => (Char.ofNat 13 :: p.1, p.2))
    | 't' :: r => (parseStringBody r).map (fun p => (Char.ofNat 9 :: p.1, p.2))
    | 'u' :: h1 :: h2 :: h3 :: h4 :: r =>
      match hexVal? h1, hexVal? h2, hexVal? h3, hexVal? h4 with
      | some a, some b, some c, some d =>
        (parseStringBody r).map (fun p => (Char.ofNat (((a * 16 + b) * 16 + c) * 16 + d) :: p.1, p.2))
      | _, _, _, _ => none
    | _ => none
  | c :: rest =>
    if c.toNat < 32 then none
    else (parseStringBody rest).map (fun p => (c :: p.1, p.2))

/-- Parse a JSON number (after JSON whitespace) into an exact decimal
mantissa/exponent pair. -/
def parseNumber : List Char → Option ((Int × Int) × List Char) :=
  fun l =>
    let (neg, l1) := match l with
      | '-' :: r => (true, r)
      | _ => (false, l)
    let (v1, n1, l2) := takeDigits l1 0 0
    let startsZero : Bool := match l1 with
      | '0' :: _ => true
      | _ => false
    if n1 = 0 then none
    else if n1 > 1 && startsZero then none
    else
      let hasDot : Bool := match l2 with
        | '.' :: _ => true
        | _ => false
      let (v2, n2, l3) := match l2 with
        | '.' :: r => takeDigits r 0 0
        | _ => (0, 0, l2)
      if hasDot && n2 = 0 then none
      else
        let mant : Int := Int.ofNat (v1 * 10 ^ n2 + v2)
        let mant := if neg then -mant else mant
        let e0 : Int := -(n2 : Int)
        match l3 with
        | 'e' :: r | 'E' :: r =>
          let (esign, r1) := match r with
            | '-' :: r2 => (true, r2)
            | '+' :: r2 => (false, r2)
            | _ => (false, r)
          let (ev, en, r2) := takeDigits r1 0 0
          if en = 0 then none
          else some ((mant, e0 + (if esign then -(ev : Int) else (ev : Int))), r2)
        | _ => some ((mant, e0), l3)

mutual

/-- Parse one JSON value (fuel-based recursion). -/
def parseValue : Nat → List Char → Option (JVal × List Char)
  | 0, _ => none
  | fuel + 1, l =>
    match skipWs l with
    | 'n' :: 'u' :: 'l' :: 'l' :: rest => some (.null, rest)
    | 't' :: 'r' :: 'u' :: 'e' :: rest => some (.jbool true, rest)
    | 'f' :: 'a' :: 'l' :: 's' :: 'e' :: rest => some (.jbool false, rest)
    | '"' :: rest => (parseStringBody rest).map (fun p => (.str (String.mk p.1), p.2))
    | '[' :: rest => parseArr fuel rest
    | '\x7b' :: rest => parseObj fuel rest
    | l' => (parseNumber l').map (fun p => (.num p.1.1 p.1.2, p.2))

/-- Parse the elements of a JSON array after `[`. -/
def parseArr : Nat → List Char → Option (JVal × List Char)
  | 0, _ => none
  | fuel + 1, l =>
    match skipWs l with
    | ']' :: rest => some (.arr [], rest)
    | l' =>
      match parseValue fuel l' with
      | none => none
      | some (v, r) =>
        match parseArrRest fuel r with
        | none => none
        | some (vs, r2) => some (.arr (v :: vs), r2)

/-- Parse `, value`* `]` after the first element of an array. -/
def parseArrRest : Nat → List Char → Option (List JVal × List Char)
  | 0, _ => none
  | fuel + 1, l =>
    match skipWs l with
    | ']' :: rest => some ([], rest)
    | ',' :: rest =>
      match parseValue fuel rest with
      | none => none
      | some (v, r) =>
        match parseArrRest fuel r with
        | none => none
        | some (vs, r2) => some (v :: vs, r2)
    | _ => none

/-- Parse the members of a JSON object after the opening brace. -/
def parseObj : Nat → List Char → Option (JVal × List Char)
  | 0, _ => none
  | fuel + 1, l =>
    match skipWs l with
    | '\x7d' :: rest => some (.obj [], rest)
    | l' =>
      match parseMember fuel l' with
      | none => none
      | some (kv, r) =>
        match parseObjRest fuel r with
        | none => none
        | some (kvs, r2) => some (.obj (kv :: kvs), r2)

/-- Parse one `"key" : value` member of a JSON object. -/
def parseMember : Nat → List Char → Option ((String × JVal) × List Char)
  | 0, _ => none
  | fuel + 1, l =>
    match skipWs l with
    | '"' :: rest =>
      match parseStringBody rest with
      | none => none
      | some (kcs, r) =>
        match skipWs r with
        | ':' :: r2 =>
          match parseValue fuel r2 with
          | none => none
          | some (v, r3) => some ((String.mk kcs, v), r3)
        | _ => none
    | _ => none

/-- Parse `, member`* and the closing brace after the first member. -/
def parseObjRest : Nat → List Char → Option (List (String × JVal) × List Char)
  | 0, _ => none
  | fuel + 1, l =>
    match skipWs l with
    | '\x7d' :: rest => some ([], rest)
    | ',' :: rest =>
      match parseMember fuel rest with
      | none => none
      | some (kv, r) =>
        match parseObjRest fuel r with
        | none => none
        | some (kvs, r2) => some (kv :: kvs, r2)
    | _ => none

end

/-- Parse a whole buffer as one JSON document (no trailing data). -/
def parseTopChars (l : List Char) : Option JVal :=
  match parseValue (16 * (l.length + 2)) l with
  | some (v, rest) => if (skipWs rest).isEmpty then some v else none
  | none => none

/-- Parse a whole string as one JSON document. -/
def parseJsonTop (s : String) : Option JVal := parseTopChars s.data


/-!
## DataFrame construction (`pd.read_json` and `SpotifyHistory.__init__`)

Only the three columns `trackName`, `artistName`, `msPlayed` survive the
column filter in `__init__`, so a frame is modelled by which of those
columns exist plus one cell of each per row.  pandas semantics captured
here: a column exists iff some record carries the key; a record missing a
key (or carrying JSON `null`) gets a missing value (NaN/None) in that
cell; nested arrays/objects become uninterpreted `other` cells.

Numeric cells keep the exact decimal pair from the JSON text.  Two
different decimal spellings of one number (or a boolean and a number)
are distinct cells here, although Python would hash them together as
group keys — irrelevant for name fields, which are strings in practice.

Shapes accepted by `pd.read_json` beyond an array of record objects are
modelled where they matter: an array of non-objects yields rows with none
of the expected columns, and an object of objects is read with
column-oriented semantics.  An array mixing objects and non-objects, or
an object with a non-object member, is modelled as a read error (pandas
raises `ValueError` on all-scalar dicts; scalar broadcasting over a
dict-of-dicts is not modelled).
-/

inductive Cell where
  | nan
  | str (s : String)
  | num (m : Int) (e10 : Int)
  | boolean (b : Bool)
  | other
deriving DecidableEq, Repr

/-- The cell a JSON value becomes in an object column. -/
def cellOfJVal : JVal → Cell
  | .null => .nan
  | .jbool b => .boolean b
  | .num m e => .num m e
  | .str s => .str s
  | .arr _ => .other
  | .obj _ => .other

/-- Last binding of a key in a JSON object (Python keeps the last
duplicate key). -/
def lookupLast (k : String) : List (String × JVal) → Option JVal
  | [] => none
  | (k', v) :: rest =>
    match lookupLast k rest with
    | some w => some w
    | none => if k' = k then some v else none

/-- The cell for key `k` of one record: missing key becomes NaN. -/
def fieldCell (k : String) (fields : List (String × JVal)) : Cell :=
  match lookupLast k fields with
  | none => .nan
  | some v => cellOfJVal v

def kTrackName : String := "trackName"
def kArtistName : String := "artistName"
def kMsPlayed : String := "msPlayed"

/-- One row of cells extracted from a record object. -/
structure Row0 where
  track : Cell
  artist : Cell
  ms : Cell
deriving DecidableEq, Repr

/-- The frame `pd.read_json` produces, restricted to the three expected
columns: which of them exist, and the per-row cells. -/
structure Frame0 where
  hasTrack : Bool
  hasArtist : Bool
  hasMs : Bool
  rows : List Row0
deriving DecidableEq, Repr

/-- Whether a JSON value is an object. -/
def isObjV : JVal → Bool
  | .obj _ => true
  | _ => false

/-- Whether an object value carries the key `k`. -/
def hasKeyV (k : String) : JVal → Bool
  | .obj fields => (lookupLast k fields).isSome
  | _ => false

/-- The row of expected-column cells of one array element. -/
def rowOfVal : JVal → Row0
  | .obj fields => ⟨fieldCell kTrackName fields, fieldCell kArtistName fields,
      fieldCell kMsPlayed fields⟩
  | _ => ⟨.nan, .nan, .nan⟩

/-- Inner keys of an object value (the row index contributed by one
column in column-oriented reading). -/
def keysOfObj : JVal → List String
  | .obj fields => fields.map Prod.fst
  | _ => []

/-- Cell of column `k` at row index `i` in column-oriented reading. -/
def dictCell (fields : List (String × JVal)) (k i : String) : Cell :=
  match lookupLast k fields with
  | some (.obj g) =>
    match lookupLast i g with
    | none => .nan
    | some v => cellOfJVal v
  | _ => .nan

/-- Model of `pd.read_json` on a decoded JSON document, restricted to the three
expected columns. -/
def readJsonVal : JVal → Except Unit Frame0
  | .arr vs =>
    if vs.all isObjV then
      .ok ⟨vs.any (hasKeyV kTrackName), vs.any (hasKeyV kArtistName),
           vs.any (hasKeyV kMsPlayed), vs.map rowOfVal⟩
    else if vs.any isObjV then .error ()
    else .ok ⟨false, false, false, vs.map (fun _ => ⟨.nan, .nan, .nan⟩)⟩
  | .obj fields =>
    if fields.all (fun p => isObjV p.2) then
      let idx := ((fields.map (fun p => keysOfObj p.2)).flatten).dedup
      .ok ⟨fields.any (fun p => p.1 = kTrackName), fields.any (fun p => p.1 = kArtistName),
           fields.any (fun p => p.1 = kMsPlayed),
           idx.map (fun i => ⟨dictCell fields kTrackName i, dictCell fields kArtistName i,
             dictCell fields kMsPlayed i⟩)⟩
    else .error ()
  | _ => .error ()

/-- Split a character buffer on newline characters. -/
def splitLinesC : List Char → List (List Char)
  | [] => [[]]
  | c :: rest =>
    if c = Char.ofNat 10 then [] :: splitLinesC rest
    else
      match splitLinesC rest with
      | [] => [[c]]
      | l :: ls => (c :: l) :: ls

/-- Strip whitespace from both ends of a line. -/
def trimC (l : List Char) : List Char := (skipWs ((skipWs l).reverse)).reverse

/-- Join line buffers with commas. -/
def intercalateComma : List (List Char) → List Char
  | [] => []
  | [l] => l
  | l :: ls => l ++ ',' :: intercalateComma ls

/-- What `pd.read_json(..., lines=True)` parses: the stripped non-empty
lines joined with commas and wrapped in brackets — NOT a per-line parse. -/
def combineLines (s : List Char) : List Char :=
  '[' :: (intercalateComma (((splitLinesC s).map trimC).filter (fun l => !l.isEmpty)) ++ [']'])

/-- First attempt of `__init__`: `pd.read_json(file_like)`. -/
def readBatch (s : String) : Except Unit Frame0 :=
  match parseJsonTop s with
  | none => .error ()
  | some v => readJsonVal v

/-- Fallback of `__init__`: `pd.read_json(file_like, lines=True)`. -/
def readLinesFallback (s : String) : Except Unit Frame0 :=
  match parseTopChars (combineLines s.data) with
  | none => .error ()
  | some v => readJsonVal v

/-- The `try`/`except ValueError` of `__init__`: batch read, then the
line-delimited fallback. -/
def initDF (s : String) : Except Unit Frame0 :=
  match readBatch s with
  | .ok f => .ok f
  | .error _ => readLinesFallback s

/-!
## Normalization: `msPlayed` → minutes

`self.df["minutes"] = self.df["msPlayed"].astype(float) / 60000.0` when
the column exists, else the scalar `0.0`.  `astype(float)` (together with
`read_json`'s numeric conversion of all-numeric string columns) coerces
numbers, booleans and numeric strings; it raises on non-numeric strings
and on nested values.  The Python float grammar is modelled without the
`inf`/`nan` words and without digit underscores.
-/

/-- Python `float(s)` on a string, as an exact decimal pair. -/
def pyFloat? (l : List Char) : Option (Int × Int) :=
  let t := trimC l
  let (neg, l1) := match t with
    | '-' :: r => (true, r)
    | '+' :: r => (false, r)
    | _ => (false, t)
  let (v1, n1, l2) := takeDigits l1 0 0
  let hasDot : Bool := match l2 with
    | '.' :: _ => true
    | _ => false
  let (v2, n2, l3) := match l2 with
    | '.' :: r => takeDigits r 0 0
    | _ => (0, 0, l2)
  if n1 = 0 ∧ n2 = 0 then none
  else
    let mant : Int := Int.ofNat (v1 * 10 ^ n2 + v2)
    let mant := if neg then -mant else mant
    let e0 : Int := -(n2 : Int)
    let _ := hasDot
    match l3 with
    | 'e' :: r | 'E' :: r =>
      let (esign, r1) := match r with
        | '-' :: r2 => (true, r2)
        | '+' :: r2 => (false, r2)
        | _ => (false, r)
      let (ev, en, r2) := takeDigits r1 0 0
      if en = 0 ∨ !r2.isEmpty then none
      else some (mant, e0 + (if esign then -(ev : Int) else (ev : Int)))
    | [] => some (mant, e0)
    | _ => none

/-- Model of `astype(float)` on one cell: NaN passes through, numbers, booleans
and numeric strings coerce, anything else raises. -/
def astypeFloatCell : Cell → Except Unit (Option F)
  | .nan => .ok none
  | .num m e => .ok (some (floatOfDec m e))
  | .boolean b => .ok (some (if b then floatOfDec 1 0 else F.zero))
  | .str s =>
    match pyFloat? s.data with
    | some (m, e) => .ok (some (floatOfDec m e))
    | none => .error ()
  | .other => .error ()

/-- A normalized row: name cells plus the derived minutes value
(`none` is pandas NaN). -/
structure Row where
  track : Cell
  artist : Cell
  minutes : Option F
deriving DecidableEq, Repr

/-- The frame after `__init__` finishes: the `minutes` column always
exists, the name columns may not. -/
structure Frame where
  hasTrack : Bool
  hasArtist : Bool
  rows : List Row
deriving DecidableEq, Repr

/-- Decidable equality of `Except` results (core provides none). -/
instance instDecEqExcept {ε α : Type} [DecidableEq ε] [DecidableEq α] :
    DecidableEq (Except ε α)
  | .error a, .error b =>
    match decEq a b with
    | isTrue h => isTrue (h ▸ rfl)
    | isFalse h => isFalse (fun hh => h (by cases hh; rfl))
  | .error _, .ok _ => isFalse (fun h => Except.noConfusion h)
  | .ok _, .error _ => isFalse (fun h => Except.noConfusion h)
  | .ok a, .ok b =>
    match decEq a b with
    | isTrue h => isTrue (h ▸ rfl)
    | isFalse h => isFalse (fun hh => h (by cases hh; rfl))

/-- Minutes of one cell: float conversion then division by `60000.0`. -/
def toMinutes (c : Cell) : Except Unit (Option F) :=
  (astypeFloatCell c).map (fun o => o.map (fun f => fdivInt f 60000))

/-- Convert every row, propagating an `astype` failure. -/
def msRows : List Row0 → Except Unit (List Row)
  | [] => .ok []
  | r :: rs =>
    match toMinutes r.ms with
    | .error _ => .error ()
    | .ok o =>
      match msRows rs with
      | .error _ => .error ()
      | .ok rest => .ok (⟨r.track, r.artist, o⟩ :: rest)

/-- The column filter and minutes derivation of `__init__`. -/
def normalizeF (f0 : Frame0) : Except Unit Frame :=
  if f0.hasMs then (msRows f0.rows).map (fun rs => Frame.mk f0.hasTrack f0.hasArtist rs)
  else .ok ⟨f0.hasTrack, f0.hasArtist, f0.rows.map (fun r => ⟨r.track, r.artist, some F.zero⟩)⟩

/-- Source `SpotifyHistory.__init__` end to end: read (with fallback), then
normalize; a normalization error is not retried as line-delimited input
because the `try` block covers only the reads. -/
def spotifyInit (s : String) : Except Unit Frame :=
  match initDF s with
  | .error _ => .error ()
  | .ok f0 => normalizeF f0

/-!
## Aggregation (`total_minutes`, `top_song`, `top_artist`, `top_3_songs`)

`groupby` semantics captured from pandas defaults: rows whose grouping
key holds a missing value are dropped (`dropna=True`); group sums
accumulate in row order into a key-to-running-sum mapping, skipping NaN
(a NaN contributes like adding `0.0`); the grouped table is ordered by
key ascending (`sort=True`).  `sort_values(ascending=False)` is modelled
as a stable descending sort — exact for the group counts the claims
exercise, since numpy's quicksort falls back to a stable insertion sort
below 16 elements and is otherwise merely some deterministic order.
`iloc[0]` on an empty grouped table is an `IndexError`; grouping by an
absent column is a `KeyError`; both are modelled as `Except.error`.

Keys are ordered by Python-comparison semantics per constructor (strings
by code point, numbers by value) with constructor ranks and a
representation tie-break making the order total — pandas would raise on
mixed-type or unhashable keys, which no claim exercises.
-/

/-- Code-point lexicographic string comparison (Python `str` order). -/
def charListLe : List Char → List Char → Bool
  | [], _ => true
  | _ :: _, [] => false
  | a :: as, b :: bs =>
    if a.toNat < b.toNat then true
    else if b.toNat < a.toNat then false
    else charListLe as bs

/-- String comparison on the underlying character lists. -/
def strLe (a b : String) : Bool := charListLe a.data b.data

/-- Exact value of a decimal pair. -/
def decVal (m e10 : Int) : ℚ := (m : ℚ) * (10 : ℚ) ^ e10

/-- Align two scaled integers `m1 * base ^ e1`, `m2 * base ^ e2` to a
common exponent so they compare as integers. -/
def alignedPair (base : Nat) (m1 e1 m2 e2 : Int) : Int × Int :=
  let e := min e1 e2
  (m1 * ((base ^ (e1 - e).toNat : Nat) : Int), m2 * ((base ^ (e2 - e).toNat : Nat) : Int))

/-- Value comparison `m1 * 10 ^ e1 ≤ m2 * 10 ^ e2` of decimal pairs. -/
def decLe (m1 e1 m2 e2 : Int) : Bool :=
  (alignedPair 10 m1 e1 m2 e2).1 ≤ (alignedPair 10 m1 e1 m2 e2).2

/-- Value equality of decimal pairs. -/
def decEqv (m1 e1 m2 e2 : Int) : Bool :=
  (alignedPair 10 m1 e1 m2 e2).1 = (alignedPair 10 m1 e1 m2 e2).2

/-- Total order on cells: values compare within one Python type (numbers
by value with a representation tie-break keeping the order antisymmetric,
booleans with `False < True`, strings by code point), and constructors of
different types are ranked `num < boolean < str < other < nan` — pandas
raises on mixed-type or unhashable sort keys, which no claim exercises,
so any total extension is adequate there. -/
def cellLe : Cell → Cell → Bool
  | .num m1 e1, .num m2 e2 =>
    (decLe m1 e1 m2 e2 && !decLe m2 e2 m1 e1) ||
      (decEqv m1 e1 m2 e2 && (m1 < m2 || (m1 = m2 && e1 ≤ e2)))
  | .num _ _, _ => true
  | .boolean _, .num _ _ => false
  | .boolean x, .boolean y => !x || y
  | .boolean _, _ => true
  | .str _, .num _ _ => false
  | .str _, .boolean _ => false
  | .str x, .str y => strLe x y
  | .str _, _ => true
  | .other, .nan => true
  | .other, .other => true
  | .other, _ => false
  | .nan, .nan => true
  | .nan, _ => false

/-- Lexicographic order on `(trackName, artistName)` keys (pandas sorts
a MultiIndex level by level). -/
def keyLe (a b : Cell × Cell) : Bool :=
  if a.1 = b.1 then cellLe a.2 b.2 else cellLe a.1 b.1

/-- The value a row contributes to sums: its minutes, with NaN
contributing zero (numpy `nansum` / grouped sum skipping NaN). -/
def minVal (r : Row) : F := r.minutes.getD F.zero

/-- Grouping key of a row for `groupby(["trackName", "artistName"])`:
rows with a missing value in either key column are dropped. -/
def songKeyOf (r : Row) : Option (Cell × Cell) :=
  if r.track = Cell.nan ∨ r.artist = Cell.nan then none else some (r.track, r.artist)

/-- Grouping key for `groupby("artistName")`. -/
def artistKeyOf (r : Row) : Option Cell :=
  if r.artist = Cell.nan then none else some r.artist

/-- Add one observation to a key-to-running-sum mapping: bump the
existing entry or append a fresh one started from `0.0`. -/
def addTo {κ : Type} [DecidableEq κ] (k : κ) (v : F) : List (κ × F) → List (κ × F)
  | [] => [(k, fadd F.zero v)]
  | (k', s) :: rest => if k' = k then (k', fadd s v) :: rest else (k', s) :: addTo k v rest

/-- Grouped running sums in first-appearance order. -/
def accSums {κ : Type} [DecidableEq κ] (key : Row → Option κ) (rows : List Row) :
    List (κ × F) :=
  rows.foldl (fun acc r =>
    match key r with
    | none => acc
    | some k => addTo k (minVal r) acc) []

/-- Stable insertion into a sorted list: `x` goes before the first
element it compares `le` to. -/
def insertBy {α : Type} (le : α → α → Bool) (x : α) : List α → List α
  | [] => [x]
  | y :: ys => if le x y then x :: y :: ys else y :: insertBy le x ys

/-- Stable insertion sort. -/
def sortBy {α : Type} (le : α → α → Bool) : List α → List α
  | [] => []
  | x :: xs => insertBy le x (sortBy le xs)

/-- Model of `groupby(..., sort=True)`: grouped sums ordered by key ascending. -/
def groupedSongs (rows : List Row) : List ((Cell × Cell) × F) :=
  sortBy (fun a b => keyLe a.1 b.1) (accSums songKeyOf rows)

/-- Artist-level grouped sums ordered by key ascending. -/
def groupedArtists (rows : List Row) : List (Cell × F) :=
  sortBy (fun a b => cellLe a.1 b.1) (accSums artistKeyOf rows)

/-- Descending-by-sum comparison used by `sort_values(ascending=False)`. -/
def vge {κ : Type} (a b : κ × F) : Bool := F.ble b.2 a.2

/-- The song groups after `sort_values("minutes", ascending=False)`. -/
def sortedSongGroups (rows : List Row) : List ((Cell × Cell) × F) :=
  sortBy vge (groupedSongs rows)

/-- The artist groups after `sort_values("minutes", ascending=False)`. -/
def sortedArtistGroups (rows : List Row) : List (Cell × F) :=
  sortBy vge (groupedArtists rows)

/-- One reported song row: `{"song": ..., "artist": ..., "mins": int(...)}`. -/
structure SongResult where
  song : Cell
  artist : Cell
  mins : Int
deriving DecidableEq, Repr

/-- One reported artist row. -/
structure ArtistResult where
  artist : Cell
  mins : Int
deriving DecidableEq, Repr

/-- Report a song group (minutes truncated by `int()`). -/
def mkSongResult (p : (Cell × Cell) × F) : SongResult := ⟨p.1.1, p.1.2, pyInt p.2⟩

/-- Report an artist group. -/
def mkArtistResult (p : Cell × F) : ArtistResult := ⟨p.1, pyInt p.2⟩

/-- Model of `self.df["minutes"].sum()`: sequential double summation with NaN
skipped (numpy/bottleneck `nansum`; sequential order is exact below
numpy's 8-element pairwise blocking, which all concrete claims satisfy). -/
def floatSumMinutes (rows : List Row) : F :=
  rows.foldl (fun acc r => fadd acc (minVal r)) F.zero

/-- Source `SpotifyHistory.total_minutes`: `int(self.df["minutes"].sum())`. -/
def total_minutes (f : Frame) : Int := pyInt (floatSumMinutes f.rows)

/-- Source `SpotifyHistory.top_song` restricted to the rows of a frame whose key columns
exist: `.iloc[0]` of the descending sort, an `IndexError` when every
row was dropped from the grouping. -/
def topSongRows (rows : List Row) : Except Unit (Option SongResult) :=
  if rows.isEmpty then .ok none
  else
    match sortedSongGroups rows with
    | [] => .error ()
    | g :: _ => .ok (some (mkSongResult g))

/-- Source `top_artist` restricted to the rows of a frame whose artist column exists. -/
def topArtistRows (rows : List Row) : Except Unit (Option ArtistResult) :=
  if rows.isEmpty then .ok none
  else
    match sortedArtistGroups rows with
    | [] => .error ()
    | g :: _ => .ok (some (mkArtistResult g))

/-- Source `top_3_songs` on rows: `.head(n)` then row reporting; `n` defaults
to 3 as in the source. -/
def top3Rows (rows : List Row) (n : Nat := 3) : List SongResult :=
  ((sortedSongGroups rows).take n).map mkSongResult

/-- Source `SpotifyHistory.top_song`: `None` on an empty frame, `KeyError` when
a key column is missing from a non-empty frame. -/
def top_song (f : Frame) : Except Unit (Option SongResult) :=
  if f.rows.isEmpty then .ok none
  else if f.hasTrack && f.hasArtist then topSongRows f.rows
  else .error ()

/-- Source `SpotifyHistory.top_artist`. -/
def top_artist (f : Frame) : Except Unit (Option ArtistResult) :=
  if f.rows.isEmpty then .ok none
  else if f.hasArtist then topArtistRows f.rows
  else .error ()

/-- Source `SpotifyHistory.top_3_songs`. -/
def top_3_songs (f : Frame) (n : Nat := 3) : Except Unit (List SongResult) :=
  if f.rows.isEmpty then .ok []
  else if f.hasTrack && f.hasArtist then .ok (top3Rows f.rows n)
  else .error ()

/-!
## The `/analyze` request pipeline
-/

/-- Route step `total = stats.total_minutes()` for an uploaded buffer. -/
def analyzeTotal (s : String) : Except Unit Int := (spotifyInit s).map total_minutes

/-- Route step `top_song = stats.top_song()` for an uploaded buffer. -/
def analyzeTopSong (s : String) : Except Unit (Option SongResult) :=
  match spotifyInit s with
  | .error _ => .error ()
  | .ok f => top_song f

/-- Route step `top_artist = stats.top_artist()` for an uploaded buffer. -/
def analyzeTopArtist (s : String) : Except Unit (Option ArtistResult) :=
  match spotifyInit s with
  | .error _ => .error ()
  | .ok f => top_artist f

/-- Route step `top3 = stats.top_3_songs()` for an uploaded buffer. -/
def analyzeTop3 (s : String) (n : Nat := 3) : Except Unit (List SongResult) :=
  match spotifyInit s with
  | .error _ => .error ()
  | .ok f => top_3_songs f n

/-- The concrete scenario buffer of the spec (three plays). -/
def exScenario : String :=
  "[\x7b\"trackName\":\"A\",\"artistName\":\"X\",\"msPlayed\":90000\x7d, \x7b\"trackName\":\"B\",\"artistName\":\"X\",\"msPlayed\":30000\x7d, \x7b\"trackName\":\"A\",\"artistName\":\"X\",\"msPlayed\":30000\x7d]"

/-!
## Predicates modelled from the spec (for refinement comparisons)
-/

/-- Modelled from the spec: the buffer is "a single JSON array of
objects" (the batch shape of the parser contract, §4.1 step 1). -/
def validBatchSpec (s : String) : Bool :=
  match parseJsonTop s with
  | some (.arr vs) => vs.all isObjV
  | _ => false

/-- Modelled from the spec: the buffer is valid newline-delimited JSON,
"each non-empty line one JSON object" (§4.1 step 2). -/
def validLinesSpec (s : String) : Bool :=
  (((splitLinesC s.data).map trimC).filter (fun l => !l.isEmpty)).all fun l =>
    match parseTopChars l with
    | some (.obj _) => true
    | _ => false

/-- Sum of minutes over the rows matching one song key, folded in row
order from `0.0` (the reference sum a group should carry). -/
def groupSumSong (rows : List Row) (k : Cell × Cell) : F :=
  rows.foldl (fun acc r => if songKeyOf r = some k then fadd acc (minVal r) else acc) F.zero

/-- Sum of minutes over the rows matching one artist key. -/
def groupSumArtist (rows : List Row) (k : Cell) : F :=
  rows.foldl (fun acc r => if artistKeyOf r = some k then fadd acc (minVal r) else acc) F.zero

/-- Modelled from the spec: the §4.2 tie-break policy for `top_song` —
"select the group whose first-occurring record appears earliest in the
original input sequence" among the groups of maximum summed minutes. -/
def specInputOrderTopSongKey (rows : List Row) : Option (Cell × Cell) :=
  (rows.filterMap songKeyOf).find? fun k =>
    (rows.filterMap songKeyOf).all fun k2 =>
      F.ble (groupSumSong rows k2) (groupSumSong rows k)

/-!
## Concrete inputs used by the counterexamples
-/

/-- Three plays of 882003 ms, 84902 ms and 53095 ms: exactly 1020000 ms
= 17 minutes, but the double sum of the three rounded quotients is just
below 17. -/
def exRound : String :=
  "[\x7b\"msPlayed\":882003\x7d,\x7b\"msPlayed\":84902\x7d,\x7b\"msPlayed\":53095\x7d]"

/-- Two records, the second without `artistName`. -/
def exDropKey : String :=
  "[\x7b\"trackName\":\"A\",\"artistName\":\"X\",\"msPlayed\":60000\x7d,\x7b\"trackName\":\"B\",\"msPlayed\":60000\x7d]"

/-- A JSON array of scalars: neither an array of objects nor
newline-delimited objects, yet `pd.read_json` accepts it. -/
def exScalars : String := "[1,2,3]"

/-- A record whose `msPlayed` is the numeric string "60000". -/
def exStrMs : String := "[\x7b\"msPlayed\":\"60000\"\x7d]"

/-- Two records, the first without `trackName`. -/
def exMissingTrack : String :=
  "[\x7b\"artistName\":\"X\",\"msPlayed\":60000\x7d,\x7b\"trackName\":\"A\",\"artistName\":\"X\",\"msPlayed\":60000\x7d]"

/-- A single record carrying only `msPlayed`: both name columns are
absent from the resulting frame. -/
def exNoNames : String := "[\x7b\"msPlayed\":60000\x7d]"

/-- Two one-minute plays of different tracks of one artist, the
lexicographically larger track first. -/
def exTie : String :=
  "[\x7b\"trackName\":\"B\",\"artistName\":\"X\",\"msPlayed\":60000\x7d,\x7b\"trackName\":\"A\",\"artistName\":\"X\",\"msPlayed\":60000\x7d]"

/-- One record with explicit `null` name fields: the name columns exist
but every row is dropped from the song grouping. -/
def exNullNames : String :=
  "[\x7b\"trackName\":null,\"artistName\":null,\"msPlayed\":60000\x7d]"

/-!
## Sanity checks of the embedding on concrete values

The double model is checked against IEEE-754 double arithmetic, the
JSON parser against the JSON grammar, and the pipeline end to end.
-/

-- sanity checks of the double model against Python/IEEE-754 arithmetic
example : fdivInt (floatOfDec 90000 0) 60000 = ⟨6755399441055744, -52⟩ := by decide
example : (fdivInt (floatOfDec 90000 0) 60000).toRat = 3 / 2 := by
  have h : fdivInt (floatOfDec 90000 0) 60000 = ⟨6755399441055744, -52⟩ := by decide
  rw [h]; unfold F.toRat; norm_num
example : fadd (fdivInt (floatOfDec 90000 0) 60000) (fdivInt (floatOfDec 30000 0) 60000) =
    ⟨4503599627370496, -51⟩ := by decide
example : pyInt (fadd (fdivInt (floatOfDec 90000 0) 60000) (fdivInt (floatOfDec 30000 0) 60000)) = 2 := by
  decide
example : pyInt ⟨-5, -1⟩ = -2 := by decide

-- sanity checks of the parser (positive cases are exercised end-to-end below)
example : (parseJsonTop ("[1,]")).isNone = true := by decide
example : (parseJsonTop ("01")).isNone = true := by decide
example : (parseJsonTop ("[1, -2.5e1]")).isSome = true := by decide
example : (parseJsonTop (" \x7b\"a\" : \"x\\n\"\x7d ")).isSome = true := by decide
example : (parseJsonTop ("\x7b\"a\":1")).isNone = true := by decide

-- sanity checks through the pipeline
example : spotifyInit ("[]") = .ok ⟨false, false, []⟩ := by decide
example : spotifyInit ("[\x7b\"msPlayed\":90000\x7d]") =
    .ok ⟨false, false, [⟨.nan, .nan, some ⟨6755399441055744, -52⟩⟩]⟩ := by decide
example : spotifyInit ("not json at all") = .error () := by decide
example : spotifyInit ("\x7b\"msPlayed\":60000\x7d\n\x7b\"msPlayed\":30000\x7d") =
    .ok ⟨false, false, [⟨.nan, .nan, some ⟨4503599627370496, -52⟩⟩,
      ⟨.nan, .nan, some ⟨4503599627370496, -53⟩⟩]⟩ := by decide

/-!
## Bridge lemmas: integer-level comparisons vs exact rational values
-/

theorem alignedPair_le_iff (b : Nat) (hb : 0 < b) (m1 e1 m2 e2 : Int) :
    ((alignedPair b m1 e1 m2 e2).1 ≤ (alignedPair b m1 e1 m2 e2).2) ↔
      (m1 : ℚ) * (b : ℚ) ^ e1 ≤ (m2 : ℚ) * (b : ℚ) ^ e2 := by
  have hbq : (0 : ℚ) < (b : ℚ) := by exact_mod_cast hb
  have hbne : (b : ℚ) ≠ 0 := ne_of_gt hbq
  set e := min e1 e2 with he
  have h1 : 0 ≤ e1 - e := sub_nonneg.mpr (min_le_left e1 e2)
  have h2 : 0 ≤ e2 - e := sub_nonneg.mpr (min_le_right e1 e2)
  have key : ∀ (m ei : Int), 0 ≤ ei - e →
      ((m * ((b ^ (ei - e).toNat : Nat) : Int) : Int) : ℚ) * (b : ℚ) ^ e
        = (m : ℚ) * (b : ℚ) ^ ei := by
    intro m ei hei
    push_cast
    rw [mul_assoc]
    congr 1
    rw [← zpow_natCast (b : ℚ) (ei - e).toNat, ← zpow_add₀ hbne, Int.toNat_of_nonneg hei,
      sub_add_cancel]
  simp only [alignedPair]
  constructor
  · intro h
    have hq : ((m1 * ((b ^ (e1 - e).toNat : Nat) : Int) : Int) : ℚ) ≤
        ((m2 * ((b ^ (e2 - e).toNat : Nat) : Int) : Int) : ℚ) := by exact_mod_cast h
    have h' := (mul_le_mul_right (zpow_pos hbq e)).mpr hq
    rwa [key m1 e1 h1, key m2 e2 h2] at h'
  · intro h
    have h' : ((m1 * ((b ^ (e1 - e).toNat : Nat) : Int) : Int) : ℚ) * (b : ℚ) ^ e ≤
        ((m2 * ((b ^ (e2 - e).toNat : Nat) : Int) : Int) : ℚ) * (b : ℚ) ^ e := by
      rw [key m1 e1 h1, key m2 e2 h2]; exact h
    exact_mod_cast (mul_le_mul_right (zpow_pos hbq e)).mp h'

theorem alignedPair_ge_iff (b : Nat) (hb : 0 < b) (m1 e1 m2 e2 : Int) :
    ((alignedPair b m1 e1 m2 e2).2 ≤ (alignedPair b m1 e1 m2 e2).1) ↔
      (m2 : ℚ) * (b : ℚ) ^ e2 ≤ (m1 : ℚ) * (b : ℚ) ^ e1 := by
  have hbq : (0 : ℚ) < (b : ℚ) := by exact_mod_cast hb
  have hbne : (b : ℚ) ≠ 0 := ne_of_gt hbq
  set e := min e1 e2 with he
  have h1 : 0 ≤ e1 - e := sub_nonneg.mpr (min_le_left e1 e2)
  have h2 : 0 ≤ e2 - e := sub_nonneg.mpr (min_le_right e1 e2)
  have key : ∀ (m ei : Int), 0 ≤ ei - e →
      ((m * ((b ^ (ei - e).toNat : Nat) : Int) : Int) : ℚ) * (b : ℚ) ^ e
        = (m : ℚ) * (b : ℚ) ^ ei := by
    intro m ei hei
    push_cast
    rw [mul_assoc]
    congr 1
    rw [← zpow_natCast (b : ℚ) (ei - e).toNat, ← zpow_add₀ hbne, Int.toNat_of_nonneg hei,
      sub_add_cancel]
  simp only [alignedPair]
  constructor
  · intro h
    have hq : ((m2 * ((b ^ (e2 - e).toNat : Nat) : Int) : Int) : ℚ) ≤
        ((m1 * ((b ^ (e1 - e).toNat : Nat) : Int) : Int) : ℚ) := by exact_mod_cast h
    have h' := (mul_le_mul_right (zpow_pos hbq e)).mpr hq
    rwa [key m1 e1 h1, key m2 e2 h2] at h'
  · intro h
    have h' : ((m2 * ((b ^ (e2 - e).toNat : Nat) : Int) : Int) : ℚ) * (b : ℚ) ^ e ≤
        ((m1 * ((b ^ (e1 - e).toNat : Nat) : Int) : Int) : ℚ) * (b : ℚ) ^ e := by
      rw [key m1 e1 h1, key m2 e2 h2]; exact h
    exact_mod_cast (mul_le_mul_right (zpow_pos hbq e)).mp h'

theorem alignedPair_eq_iff (b : Nat) (hb : 0 < b) (m1 e1 m2 e2 : Int) :
    ((alignedPair b m1 e1 m2 e2).1 = (alignedPair b m1 e1 m2 e2).2) ↔
      (m1 : ℚ) * (b : ℚ) ^ e1 = (m2 : ℚ) * (b : ℚ) ^ e2 := by
  constructor
  · intro h
    exact le_antisymm ((alignedPair_le_iff b hb m1 e1 m2 e2).mp h.le)
      ((alignedPair_ge_iff b hb m1 e1 m2 e2).mp h.ge)
  · intro h
    exact le_antisymm ((alignedPair_le_iff b hb m1 e1 m2 e2).mpr h.le)
      ((alignedPair_ge_iff b hb m1 e1 m2 e2).mpr h.ge)

theorem ble_eq_alignedPair (x y : F) :
    F.ble x y = decide ((alignedPair 2 x.num x.exp y.num y.exp).1 ≤
      (alignedPair 2 x.num x.exp y.num y.exp).2) := rfl

theorem ble_iff_toRat (x y : F) : F.ble x y = true ↔ x.toRat ≤ y.toRat := by
  rw [ble_eq_alignedPair, decide_eq_true_iff]
  have h := alignedPair_le_iff 2 (by norm_num) x.num x.exp y.num y.exp
  have hc : ((2 : Nat) : ℚ) = (2 : ℚ) := by norm_num
  rw [hc] at h
  exact h

theorem ble_refl (x : F) : F.ble x x = true := (ble_iff_toRat x x).mpr le_rfl

theorem ble_total (x y : F) : F.ble x y = true ∨ F.ble y x = true := by
  rcases le_total x.toRat y.toRat with h | h
  · exact Or.inl ((ble_iff_toRat x y).mpr h)
  · exact Or.inr ((ble_iff_toRat y x).mpr h)

theorem ble_trans {x y z : F} (h1 : F.ble x y = true) (h2 : F.ble y z = true) :
    F.ble x z = true :=
  (ble_iff_toRat x z).mpr (le_trans ((ble_iff_toRat x y).mp h1) ((ble_iff_toRat y z).mp h2))

theorem decLe_iff (m1 e1 m2 e2 : Int) :
    decLe m1 e1 m2 e2 = true ↔ decVal m1 e1 ≤ decVal m2 e2 := by
  have h := alignedPair_le_iff 10 (by norm_num) m1 e1 m2 e2
  have hc : ((10 : Nat) : ℚ) = (10 : ℚ) := by norm_num
  rw [hc] at h
  rw [decLe, decide_eq_true_iff, decVal, decVal]
  exact h

theorem decEqv_iff (m1 e1 m2 e2 : Int) :
    decEqv m1 e1 m2 e2 = true ↔ decVal m1 e1 = decVal m2 e2 := by
  have h := alignedPair_eq_iff 10 (by norm_num) m1 e1 m2 e2
  have hc : ((10 : Nat) : ℚ) = (10 : ℚ) := by norm_num
  rw [hc] at h
  rw [decEqv, decide_eq_true_iff, decVal, decVal]
  exact h

/-!
## Order properties of the key comparisons
-/

theorem charListLe_nil (l : List Char) : charListLe [] l = true := by
  cases l <;> rfl

theorem charListLe_cons (x y : Char) (xs ys : List Char) :
    charListLe (x :: xs) (y :: ys) = true ↔
      x.toNat < y.toNat ∨ (x.toNat = y.toNat ∧ charListLe xs ys = true) := by
  show (if x.toNat < y.toNat then true
      else if y.toNat < x.toNat then false else charListLe xs ys) = true ↔ _
  split_ifs with h1 h2
  · simp [h1]
  · simp [h1, h2]; omega
  · have hxy : x.toNat = y.toNat := by omega
    simp [hxy, h1]

theorem charListLe_refl : ∀ l : List Char, charListLe l l = true
  | [] => rfl
  | _ :: rest => (charListLe_cons _ _ _ _).mpr (Or.inr ⟨rfl, charListLe_refl rest⟩)

theorem charListLe_total : ∀ a b : List Char, charListLe a b = true ∨ charListLe b a = true
  | [], b => Or.inl (charListLe_nil b)
  | _ :: _, [] => Or.inr (charListLe_nil _)
  | x :: xs, y :: ys => by
    rcases Nat.lt_trichotomy x.toNat y.toNat with h | h | h
    · exact Or.inl ((charListLe_cons _ _ _ _).mpr (Or.inl h))
    · rcases charListLe_total xs ys with h2 | h2
      · exact Or.inl ((charListLe_cons _ _ _ _).mpr (Or.inr ⟨h, h2⟩))
      · exact Or.inr ((charListLe_cons _ _ _ _).mpr (Or.inr ⟨h.symm, h2⟩))
    · exact Or.inr ((charListLe_cons _ _ _ _).mpr (Or.inl h))

theorem charListLe_trans : ∀ a b c : List Char,
    charListLe a b = true → charListLe b c = true → charListLe a c = true
  | [], _, c, _, _ => charListLe_nil c
  | _ :: _, [], _, hab, _ => by simp [charListLe] at hab
  | _ :: _, _ :: _, [], _, hbc => by simp [charListLe] at hbc
  | x :: xs, y :: ys, z :: zs, hab, hbc => by
    rcases (charListLe_cons _ _ _ _).mp hab with h1 | ⟨h1, h1r⟩ <;>
      rcases (charListLe_cons _ _ _ _).mp hbc with h2 | ⟨h2, h2r⟩
    · exact (charListLe_cons _ _ _ _).mpr (Or.inl (Nat.lt_trans h1 h2))
    · exact (charListLe_cons _ _ _ _).mpr (Or.inl (by omega))
    · exact (charListLe_cons _ _ _ _).mpr (Or.inl (by omega))
    · exact (charListLe_cons _ _ _ _).mpr
        (Or.inr ⟨h1.trans h2, charListLe_trans xs ys zs h1r h2r⟩)

theorem charEq_of_toNat_eq {a b : Char} (h : a.toNat = b.toNat) : a = b := by
  have hv : a.val = b.val := UInt32.toNat.inj h
  exact Char.eq_of_val_eq hv

theorem charListLe_antisymm : ∀ a b : List Char,
    charListLe a b = true → charListLe b a = true → a = b
  | [], [], _, _ => rfl
  | [], _ :: _, _, hba => by simp [charListLe] at hba
  | _ :: _, [], hab, _ => by simp [charListLe] at hab
  | x :: xs, y :: ys, hab, hba => by
    rcases (charListLe_cons _ _ _ _).mp hab with h1 | ⟨h1, h1r⟩ <;>
      rcases (charListLe_cons _ _ _ _).mp hba with h2 | ⟨h2, h2r⟩
    · omega
    · omega
    · omega
    · rw [charEq_of_toNat_eq h1, charListLe_antisymm xs ys h1r h2r]

theorem strLe_refl (a : String) : strLe a a = true := charListLe_refl a.data

theorem strLe_total (a b : String) : strLe a b = true ∨ strLe b a = true :=
  charListLe_total a.data b.data

theorem strLe_trans {a b c : String} (h1 : strLe a b = true) (h2 : strLe b c = true) :
    strLe a c = true := charListLe_trans a.data b.data c.data h1 h2

theorem strLe_antisymm {a b : String} (h1 : strLe a b = true) (h2 : strLe b a = true) :
    a = b := by
  have hd : a.data = b.data := charListLe_antisymm a.data b.data h1 h2
  cases a; cases b; exact congrArg String.mk hd

theorem cellLe_num_iff (m1 e1 m2 e2 : Int) :
    cellLe (.num m1 e1) (.num m2 e2) = true ↔
      decVal m1 e1 < decVal m2 e2 ∨
        (decVal m1 e1 = decVal m2 e2 ∧ (m1 < m2 ∨ (m1 = m2 ∧ e1 ≤ e2))) := by
  show ((decLe m1 e1 m2 e2 && !decLe m2 e2 m1 e1) ||
      (decEqv m1 e1 m2 e2 && (decide (m1 < m2) || (decide (m1 = m2) && decide (e1 ≤ e2))))) = true ↔ _
  simp only [Bool.or_eq_true, Bool.and_eq_true, Bool.not_eq_true', decide_eq_true_iff]
  rw [decLe_iff, decEqv_iff]
  constructor
  · rintro (⟨hle, hnge⟩ | ⟨heq, hlex⟩)
    · refine Or.inl (lt_of_le_not_le hle ?_)
      intro hc
      have hcb := (decLe_iff m2 e2 m1 e1).mpr hc
      rw [hnge] at hcb
      exact Bool.false_ne_true hcb
    · exact Or.inr ⟨heq, hlex⟩
  · rintro (hlt | ⟨heq, hlex⟩)
    · refine Or.inl ⟨le_of_lt hlt, ?_⟩
      rw [← Bool.not_eq_true, decLe_iff]
      exact not_le_of_lt hlt
    · exact Or.inr ⟨heq, hlex⟩

theorem cellLe_refl (a : Cell) : cellLe a a = true := by
  cases a with
  | num m e => exact (cellLe_num_iff m e m e).mpr (Or.inr ⟨rfl, Or.inr ⟨rfl, le_rfl⟩⟩)
  | boolean b => cases b <;> rfl
  | str s => exact strLe_refl s
  | nan => rfl
  | other => rfl

theorem cellLe_total (a b : Cell) : cellLe a b = true ∨ cellLe b a = true := by
  cases a <;> cases b <;> first
    | exact Or.inl rfl
    | exact Or.inr rfl
    | skip
  case num.num m1 e1 m2 e2 =>
    rcases lt_trichotomy (decVal m1 e1) (decVal m2 e2) with h | h | h
    · exact Or.inl ((cellLe_num_iff m1 e1 m2 e2).mpr (Or.inl h))
    · by_cases hm : m1 < m2
      · exact Or.inl ((cellLe_num_iff m1 e1 m2 e2).mpr (Or.inr ⟨h, Or.inl hm⟩))
      · by_cases hm2 : m2 < m1
        · exact Or.inr ((cellLe_num_iff m2 e2 m1 e1).mpr (Or.inr ⟨h.symm, Or.inl hm2⟩))
        · have hmeq : m1 = m2 := by omega
          rcases le_total e1 e2 with he | he
          · exact Or.inl ((cellLe_num_iff m1 e1 m2 e2).mpr (Or.inr ⟨h, Or.inr ⟨hmeq, he⟩⟩))
          · exact Or.inr
              ((cellLe_num_iff m2 e2 m1 e1).mpr (Or.inr ⟨h.symm, Or.inr ⟨hmeq.symm, he⟩⟩))
    · exact Or.inr ((cellLe_num_iff m2 e2 m1 e1).mpr (Or.inl h))
  case boolean.boolean x y => cases x <;> cases y <;> simp [cellLe]
  case str.str s1 s2 => exact strLe_total s1 s2

theorem cellLe_trans {a b c : Cell} (h1 : cellLe a b = true) (h2 : cellLe b c = true) :
    cellLe a c = true := by
  cases a <;> cases b <;> cases c <;> first
    | rfl
    | exact (Bool.false_ne_true h1).elim
    | exact (Bool.false_ne_true h2).elim
    | skip
  case num.num.num m1 e1 m2 e2 m3 e3 =>
    rcases (cellLe_num_iff m1 e1 m2 e2).mp h1 with ha | ⟨ha, hal⟩ <;>
      rcases (cellLe_num_iff m2 e2 m3 e3).mp h2 with hb | ⟨hb, hbl⟩
    · exact (cellLe_num_iff m1 e1 m3 e3).mpr (Or.inl (lt_trans ha hb))
    · exact (cellLe_num_iff m1 e1 m3 e3).mpr (Or.inl (hb ▸ ha))
    · exact (cellLe_num_iff m1 e1 m3 e3).mpr (Or.inl (ha ▸ hb))
    · exact (cellLe_num_iff m1 e1 m3 e3).mpr (Or.inr ⟨ha.trans hb, by omega⟩)
  case boolean.boolean.boolean x y z =>
    revert h1 h2; cases x <;> cases y <;> cases z <;> decide
  case str.str.str s1 s2 s3 => exact strLe_trans h1 h2

theorem cellLe_antisymm {a b : Cell} (h1 : cellLe a b = true) (h2 : cellLe b a = true) :
    a = b := by
  cases a <;> cases b <;> first
    | rfl
    | exact (Bool.false_ne_true h1).elim
    | exact (Bool.false_ne_true h2).elim
    | skip
  case num.num m1 e1 m2 e2 =>
    rcases (cellLe_num_iff m1 e1 m2 e2).mp h1 with ha | ⟨ha, hal⟩ <;>
      rcases (cellLe_num_iff m2 e2 m1 e1).mp h2 with hb | ⟨hb, hbl⟩
    · exact absurd hb (not_lt_of_lt ha)
    · exact absurd ha (by rw [hb]; exact lt_irrefl _)
    · exact absurd hb (by rw [ha]; exact lt_irrefl _)
    · have hm : m1 = m2 := by omega
      have he : e1 = e2 := by omega
      rw [hm, he]
  case boolean.boolean x y => revert h1 h2; cases x <;> cases y <;> decide
  case str.str s1 s2 => exact congrArg Cell.str (strLe_antisymm h1 h2)

theorem keyLe_refl (a : Cell × Cell) : keyLe a a = true := by
  unfold keyLe
  rw [if_pos rfl]
  exact cellLe_refl a.2

theorem keyLe_total (a b : Cell × Cell) : keyLe a b = true ∨ keyLe b a = true := by
  unfold keyLe
  by_cases h : a.1 = b.1
  · rw [if_pos h, if_pos h.symm]
    exact cellLe_total a.2 b.2
  · rw [if_neg h, if_neg (fun hh => h hh.symm)]
    exact cellLe_total a.1 b.1

theorem keyLe_trans {a b c : Cell × Cell} (h1 : keyLe a b = true) (h2 : keyLe b c = true) :
    keyLe a c = true := by
  unfold keyLe at h1 h2 ⊢
  by_cases hab : a.1 = b.1 <;> by_cases hbc : b.1 = c.1
  · rw [if_pos hab] at h1
    rw [if_pos hbc] at h2
    rw [if_pos (hab.trans hbc)]
    exact cellLe_trans h1 h2
  · rw [if_neg hbc] at h2
    rw [if_neg (fun h => hbc (hab ▸ h)), hab]
    exact h2
  · rw [if_neg hab] at h1
    rw [if_neg (fun h => hab (hbc ▸ h)), ← hbc]
    exact h1
  · rw [if_neg hab] at h1
    rw [if_neg hbc] at h2
    by_cases hac : a.1 = c.1
    · exact absurd (hac ▸ cellLe_antisymm h2 (hac ▸ h1) : b.1 = a.1) (fun h => hab h.symm)
    · rw [if_neg hac]
      exact cellLe_trans h1 h2

/-!
## Properties of the stable insertion sort
-/

theorem insertBy_ne_nil {α : Type} (le : α → α → Bool) (x : α) (l : List α) :
    insertBy le x l ≠ [] := by
  cases l with
  | nil => simp [insertBy]
  | cons y ys =>
    unfold insertBy
    split <;> simp

theorem mem_insertBy {α : Type} (le : α → α → Bool) (x a : α) :
    ∀ l : List α, (a ∈ insertBy le x l ↔ a = x ∨ a ∈ l)
  | [] => by simp [insertBy]
  | y :: ys => by
    unfold insertBy
    split
    · simp
    · rw [List.mem_cons, mem_insertBy le x a ys]
      simp
      tauto

theorem mem_sortBy {α : Type} (le : α → α → Bool) (a : α) :
    ∀ l : List α, (a ∈ sortBy le l ↔ a ∈ l)
  | [] => Iff.rfl
  | x :: xs => by
    unfold sortBy
    rw [mem_insertBy, mem_sortBy le a xs]
    simp

theorem sortBy_eq_nil_iff {α : Type} (le : α → α → Bool) (l : List α) :
    sortBy le l = [] ↔ l = [] := by
  cases l with
  | nil => simp [sortBy]
  | cons x xs =>
    simp only [sortBy]
    exact ⟨fun h => absurd h (insertBy_ne_nil le x (sortBy le xs)), fun h => absurd h (by simp)⟩

theorem pairwise_insertBy {α : Type} {le : α → α → Bool}
    (htot : ∀ a b, le a b = true ∨ le b a = true)
    (htrans : ∀ {a b c}, le a b = true → le b c = true → le a c = true) (x : α) :
    ∀ l : List α, List.Pairwise (fun a b => le a b = true) l →
      List.Pairwise (fun a b => le a b = true) (insertBy le x l)
  | [], _ => by simp [insertBy]
  | y :: ys, h => by
    rcases List.pairwise_cons.mp h with ⟨hy, hys⟩
    unfold insertBy
    split
    · rename_i hxy
      refine List.pairwise_cons.mpr ⟨?_, h⟩
      intro z hz
      rcases List.mem_cons.mp hz with rfl | hz'
      · exact hxy
      · exact htrans hxy (hy z hz')
    · rename_i hxy
      have hyx : le y x = true := by
        rcases htot x y with h' | h'
        · exact absurd h' hxy
        · exact h'
      refine List.pairwise_cons.mpr ⟨?_, pairwise_insertBy htot htrans x ys hys⟩
      intro z hz
      rcases (mem_insertBy le x z ys).mp hz with rfl | hz'
      · exact hyx
      · exact hy z hz'

theorem pairwise_sortBy {α : Type} {le : α → α → Bool}
    (htot : ∀ a b, le a b = true ∨ le b a = true)
    (htrans : ∀ {a b c}, le a b = true → le b c = true → le a c = true) :
    ∀ l : List α, List.Pairwise (fun a b => le a b = true) (sortBy le l)
  | [] => List.Pairwise.nil
  | x :: xs => pairwise_insertBy htot htrans x (sortBy le xs) (pairwise_sortBy htot htrans xs)

/-- The element the head of the stable descending sort must be: the
first element of the input that compares `le` to every other element. -/
def firstMaxBy {α : Type} (le : α → α → Bool) : List α → Option α
  | [] => none
  | x :: xs =>
    match firstMaxBy le xs with
    | none => some x
    | some m => if le x m then some x else some m

theorem firstMaxBy_eq_none_iff {α : Type} (le : α → α → Bool) (l : List α) :
    firstMaxBy le l = none ↔ l = [] := by
  cases l with
  | nil => simp [firstMaxBy]
  | cons x xs =>
    simp only [firstMaxBy]
    constructor
    · intro h
      cases hm : firstMaxBy le xs with
      | none => rw [hm] at h; exact absurd h (by simp)
      | some m => rw [hm] at h; dsimp at h; split at h <;> exact absurd h (by simp)
    · intro h
      exact absurd h (by simp)

theorem head_sortBy {α : Type} (le : α → α → Bool) :
    ∀ l : List α, (sortBy le l).head? = firstMaxBy le l
  | [] => rfl
  | x :: xs => by
    show (insertBy le x (sortBy le xs)).head? = _
    cases hs : sortBy le xs with
    | nil =>
      have hxs : xs = [] := (sortBy_eq_nil_iff le xs).mp hs
      subst hxs
      rfl
    | cons y ys =>
      have hy : firstMaxBy le xs = some y := by
        rw [← head_sortBy le xs, hs]; rfl
      show (if le x y = true then x :: y :: ys else y :: insertBy le x ys).head? = _
      rw [firstMaxBy, hy]
      split <;> rename_i h <;> simp [h]

theorem firstMaxBy_mem {α : Type} (le : α → α → Bool) :
    ∀ {l : List α} {m : α}, firstMaxBy le l = some m → m ∈ l := by
  intro l
  induction l with
  | nil => intro m h; exact absurd h (by simp [firstMaxBy])
  | cons x xs ih =>
    intro m h
    rw [firstMaxBy] at h
    cases hm : firstMaxBy le xs with
    | none => rw [hm] at h; simp at h; simp [h]
    | some m' =>
      rw [hm] at h
      dsimp at h
      split at h
      · simp at h; simp [h]
      · simp at h
        exact List.mem_cons_of_mem x (h ▸ ih hm)

theorem firstMaxBy_isMax {α : Type} {le : α → α → Bool}
    (htot : ∀ a b, le a b = true ∨ le b a = true)
    (htrans : ∀ {a b c}, le a b = true → le b c = true → le a c = true) :
    ∀ {l : List α} {m : α}, firstMaxBy le l = some m → ∀ y ∈ l, le m y = true := by
  intro l
  induction l with
  | nil => intro m h; exact absurd h (by simp [firstMaxBy])
  | cons x xs ih =>
    intro m h y hy
    have hrefl : ∀ a : α, le a a = true := fun a => by rcases htot a a with h' | h' <;> exact h'
    rw [firstMaxBy] at h
    cases hm : firstMaxBy le xs with
    | none =>
      rw [hm] at h; simp at h
      have hxs : xs = [] := (firstMaxBy_eq_none_iff le xs).mp hm
      subst hxs
      rcases List.mem_cons.mp hy with rfl | hy'
      · rw [← h]; exact hrefl y
      · exact absurd hy' (by simp)
    | some m' =>
      rw [hm] at h
      dsimp at h
      split at h <;> rename_i hxm <;> simp at h <;> subst h
      · rcases List.mem_cons.mp hy with rfl | hy'
        · exact hrefl y
        · exact htrans hxm (ih hm y hy')
      · rcases List.mem_cons.mp hy with rfl | hy'
        · rcases htot y m' with h' | h'
          · exact absurd h' hxm
          · exact h'
        · exact ih hm y hy'

theorem firstMaxBy_earliest {α : Type} {le : α → α → Bool} {R : α → α → Prop} :
    ∀ {l : List α} {m : α}, List.Pairwise R l → firstMaxBy le l = some m →
      ∀ z ∈ l, (∀ y ∈ l, le z y = true) → z = m ∨ R m z := by
  intro l
  induction l with
  | nil => intro m _ _ z hz; exact absurd hz (by simp)
  | cons x xs ih =>
    intro m hR h z hz hzmax
    rcases List.pairwise_cons.mp hR with ⟨hx, hxs⟩
    rw [firstMaxBy] at h
    cases hm : firstMaxBy le xs with
    | none =>
      rw [hm] at h; simp at h
      have hxs0 : xs = [] := (firstMaxBy_eq_none_iff le xs).mp hm
      subst hxs0
      rcases List.mem_cons.mp hz with rfl | hz'
      · exact Or.inl h
      · exact absurd hz' (by simp)
    | some m' =>
      rw [hm] at h
      dsimp at h
      split at h <;> rename_i hxm <;> simp at h <;> subst h
      · rcases List.mem_cons.mp hz with rfl | hz'
        · exact Or.inl rfl
        · exact Or.inr (hx z hz')
      · rcases List.mem_cons.mp hz with rfl | hz'
        · have : le z m' = true :=
            hzmax m' (List.mem_cons_of_mem z (firstMaxBy_mem le hm))
          exact absurd this hxm
        · exact ih hxs hm z hz' fun y hy => hzmax y (List.mem_cons_of_mem x hy)

/-!
## Properties of the key-to-running-sum accumulation
-/

/-- Lookup of the running sum for a key. -/
def lookupSum {κ : Type} [DecidableEq κ] (k : κ) : List (κ × F) → Option F
  | [] => none
  | (k', s) :: rest => if k' = k then some s else lookupSum k rest

/-- The sum a group should carry: fold the minutes of the matching rows
onto a start value, in row order. -/
def groupFoldFrom {κ : Type} [DecidableEq κ] (key : Row → Option κ) (k : κ) (s : F)
    (rows : List Row) : F :=
  rows.foldl (fun acc r => if key r = some k then fadd acc (minVal r) else acc) s

theorem groupFoldFrom_cons {κ : Type} [DecidableEq κ] (key : Row → Option κ) (k : κ)
    (s : F) (r : Row) (rows : List Row) :
    groupFoldFrom key k s (r :: rows) =
      groupFoldFrom key k (if key r = some k then fadd s (minVal r) else s) rows := by
  simp only [groupFoldFrom, List.foldl_cons]

theorem lookupSum_addTo_same {κ : Type} [DecidableEq κ] (k : κ) (v : F) :
    ∀ acc : List (κ × F),
      lookupSum k (addTo k v acc) = some (fadd ((lookupSum k acc).getD F.zero) v)
  | [] => by simp [addTo, lookupSum]
  | (k', s) :: rest => by
    by_cases h : k' = k
    · subst h
      simp [addTo, lookupSum]
    · simp only [addTo, if_neg h, lookupSum]
      exact lookupSum_addTo_same k v rest

theorem lookupSum_addTo_ne {κ : Type} [DecidableEq κ] {k k2 : κ} (v : F) (h : k2 ≠ k) :
    ∀ acc : List (κ × F), lookupSum k (addTo k2 v acc) = lookupSum k acc
  | [] => by simp [addTo, lookupSum, h]
  | (k', s) :: rest => by
    by_cases h' : k' = k2
    · subst h'
      simp [addTo, lookupSum, h]
    · simp only [addTo, if_neg h', lookupSum]
      by_cases h'' : k' = k
      · rw [if_pos h'', if_pos h'']
      · rw [if_neg h'', if_neg h'']
        exact lookupSum_addTo_ne v h rest

/-- One step of the grouped accumulation (the body of `accSums`). -/
def accStep {κ : Type} [DecidableEq κ] (key : Row → Option κ) (acc : List (κ × F))
    (r : Row) : List (κ × F) :=
  match key r with
  | none => acc
  | some k => addTo k (minVal r) acc

theorem accSums_eq_foldl {κ : Type} [DecidableEq κ] (key : Row → Option κ)
    (rows : List Row) : accSums key rows = rows.foldl (accStep key) [] := rfl

theorem lookupSum_foldl_accStep {κ : Type} [DecidableEq κ] (key : Row → Option κ) (k : κ) :
    ∀ (rows : List Row) (acc : List (κ × F)) (s' : F),
      lookupSum k (rows.foldl (accStep key) acc) = some s' →
      s' = groupFoldFrom key k ((lookupSum k acc).getD F.zero) rows
  | [], acc, s', h => by
    simp only [List.foldl_nil] at h
    simp [h, groupFoldFrom]
  | r :: rows, acc, s', h => by
    simp only [List.foldl_cons] at h
    cases hk : key r with
    | none =>
      have hstep : accStep key acc r = acc := by simp [accStep, hk]
      rw [hstep] at h
      rw [groupFoldFrom_cons, if_neg (by simp [hk])]
      exact lookupSum_foldl_accStep key k rows acc s' h
    | some k2 =>
      have hstep : accStep key acc r = addTo k2 (minVal r) acc := by simp [accStep, hk]
      rw [hstep] at h
      by_cases hkk : k2 = k
      · subst hkk
        have hrec := lookupSum_foldl_accStep key k2 rows (addTo k2 (minVal r) acc) s' h
        rw [lookupSum_addTo_same] at hrec
        rw [groupFoldFrom_cons, if_pos (by simp [hk])]
        exact hrec
      · have hrec := lookupSum_foldl_accStep key k rows (addTo k2 (minVal r) acc) s' h
        rw [lookupSum_addTo_ne (minVal r) hkk] at hrec
        rw [groupFoldFrom_cons, if_neg (by simp [hk, hkk])]
        exact hrec

theorem lookupSum_isSome_foldl_accStep {κ : Type} [DecidableEq κ] (key : Row → Option κ)
    (k : κ) :
    ∀ (rows : List Row) (acc : List (κ × F)),
      (lookupSum k (rows.foldl (accStep key) acc)).isSome =
        ((lookupSum k acc).isSome || rows.any (fun r => decide (key r = some k)))
  | [], acc => by simp
  | r :: rows, acc => by
    simp only [List.foldl_cons, List.any_cons]
    cases hk : key r with
    | none =>
      have hstep : accStep key acc r = acc := by simp [accStep, hk]
      rw [hstep, lookupSum_isSome_foldl_accStep key k rows acc]
      simp
    | some k2 =>
      have hstep : accStep key acc r = addTo k2 (minVal r) acc := by simp [accStep, hk]
      rw [hstep, lookupSum_isSome_foldl_accStep key k rows (addTo k2 (minVal r) acc)]
      by_cases hkk : k2 = k
      · subst hkk
        rw [lookupSum_addTo_same]
        simp
      · rw [lookupSum_addTo_ne (minVal r) hkk]
        simp [hkk]

theorem lookupSum_isSome_iff_mem_keys {κ : Type} [DecidableEq κ] (k : κ) :
    ∀ l : List (κ × F), (lookupSum k l).isSome = true ↔ k ∈ l.map Prod.fst
  | [] => by simp [lookupSum]
  | (k', s) :: rest => by
    by_cases h : k' = k
    · subst h
      simp [lookupSum]
    · simp only [lookupSum, if_neg h, List.map_cons, List.mem_cons]
      rw [lookupSum_isSome_iff_mem_keys k rest]
      constructor
      · exact fun hh => Or.inr hh
      · rintro (rfl | hh)
        · exact absurd rfl h
        · exact hh

theorem keys_addTo {κ : Type} [DecidableEq κ] (k2 : κ) (v : F) :
    ∀ acc : List (κ × F), (addTo k2 v acc).map Prod.fst =
      if (lookupSum k2 acc).isSome then acc.map Prod.fst else acc.map Prod.fst ++ [k2]
  | [] => by simp [addTo, lookupSum]
  | (k', s) :: rest => by
    by_cases h : k' = k2
    · subst h
      simp [addTo, lookupSum]
    · simp only [addTo, if_neg h, List.map_cons, lookupSum]
      rw [keys_addTo k2 v rest]
      by_cases hs : (lookupSum k2 rest).isSome = true <;> simp [hs]

theorem nodup_keys_addTo {κ : Type} [DecidableEq κ] (k2 : κ) (v : F)
    (acc : List (κ × F)) (h : (acc.map Prod.fst).Nodup) :
    ((addTo k2 v acc).map Prod.fst).Nodup := by
  rw [keys_addTo]
  by_cases hs : (lookupSum k2 acc).isSome = true
  · rw [if_pos hs]
    exact h
  · rw [if_neg hs]
    rw [List.nodup_append]
    refine ⟨h, List.nodup_singleton k2, ?_⟩
    intro a ha hb
    rcases List.mem_singleton.mp hb with rfl
    rw [← lookupSum_isSome_iff_mem_keys] at ha
    exact hs ha

theorem nodup_keys_foldl_accStep {κ : Type} [DecidableEq κ] (key : Row → Option κ) :
    ∀ (rows : List Row) (acc : List (κ × F)), (acc.map Prod.fst).Nodup →
      (((rows.foldl (accStep key) acc)).map Prod.fst).Nodup
  | [], _, h => h
  | r :: rows, acc, h => by
    rw [List.foldl_cons]
    cases hk : key r with
    | none =>
      have hstep : accStep key acc r = acc := by simp [accStep, hk]
      rw [hstep]
      exact nodup_keys_foldl_accStep key rows acc h
    | some k2 =>
      have hstep : accStep key acc r = addTo k2 (minVal r) acc := by simp [accStep, hk]
      rw [hstep]
      exact nodup_keys_foldl_accStep key rows _ (nodup_keys_addTo k2 (minVal r) acc h)

theorem lookupSum_of_mem_nodup {κ : Type} [DecidableEq κ] {k : κ} {s : F} :
    ∀ {l : List (κ × F)}, (l.map Prod.fst).Nodup → (k, s) ∈ l → lookupSum k l = some s := by
  intro l
  induction l with
  | nil => intro _ h; exact absurd h (by simp)
  | cons p rest ih =>
    intro hnd hm
    obtain ⟨k', s'⟩ := p
    rw [List.map_cons, List.nodup_cons] at hnd
    obtain ⟨hk', hndr⟩ := hnd
    rcases List.mem_cons.mp hm with heq | hm'
    · cases heq
      simp [lookupSum]
    · have hkr : k ∈ rest.map Prod.fst := List.mem_map_of_mem Prod.fst hm'
      have hne : k' ≠ k := fun h => hk' (h ▸ hkr)
      simp only [lookupSum, if_neg hne]
      exact ih hndr hm'

/-!
## Sign, floor and monotonicity facts about the double model
-/

/-- What Python `int()` computes on an exact rational: truncation toward
zero. -/
def ratTrunc (q : ℚ) : ℤ := if 0 ≤ q then ⌊q⌋ else ⌈q⌉

theorem toRat_zero : F.zero.toRat = 0 := by
  simp [F.toRat, F.zero]

theorem toRat_nonneg_iff (f : F) : 0 ≤ f.toRat ↔ 0 ≤ f.num := by
  unfold F.toRat
  rw [mul_nonneg_iff_of_pos_right (zpow_pos (by norm_num) f.exp)]
  exact_mod_cast Iff.rfl

theorem roundRat_num_nonneg (a : Int) (b : Nat) (h : 0 ≤ a) : 0 ≤ (roundRat a b).num := by
  unfold roundRat
  split
  · simp [F.zero]
  · rw [if_neg (not_lt.mpr h)]
    exact Int.natCast_nonneg _

theorem roundDyadic_num_nonneg (n : Int) (e : Int) (h : 0 ≤ n) :
    0 ≤ (roundDyadic n e).num := by
  unfold roundDyadic
  split
  · exact roundRat_num_nonneg _ _ (mul_nonneg h (by positivity))
  · exact roundRat_num_nonneg _ _ h

theorem fadd_num_nonneg {x y : F} (hx : 0 ≤ x.num) (hy : 0 ≤ y.num) :
    0 ≤ (fadd x y).num := by
  unfold fadd
  refine roundDyadic_num_nonneg _ _ ?_
  have h1 : (0 : Int) ≤ x.num * ((2 ^ (x.exp - min x.exp y.exp).toNat : Nat) : Int) :=
    mul_nonneg hx (by positivity)
  have h2 : (0 : Int) ≤ y.num * ((2 ^ (y.exp - min x.exp y.exp).toNat : Nat) : Int) :=
    mul_nonneg hy (by positivity)
  exact add_nonneg h1 h2

theorem toRat_of_exp_nonneg (f : F) (h : 0 ≤ f.exp) :
    f.toRat = ((f.num * ((2 ^ f.exp.toNat : Nat) : Int) : Int) : ℚ) := by
  unfold F.toRat
  push_cast
  rw [← zpow_natCast (2 : ℚ) f.exp.toNat, Int.toNat_of_nonneg h]

theorem toRat_of_exp_neg (f : F) (h : ¬0 ≤ f.exp) :
    f.toRat = (f.num : ℚ) / (((2 ^ (-f.exp).toNat : Nat) : Int) : ℚ) := by
  unfold F.toRat
  rw [div_eq_mul_inv]
  congr 1
  push_cast
  rw [← zpow_natCast (2 : ℚ) (-f.exp).toNat, Int.toNat_of_nonneg (by omega), ← zpow_neg,
    neg_neg]

theorem pyInt_eq_ratTrunc (f : F) : pyInt f = ratTrunc f.toRat := by
  unfold pyInt
  by_cases he : 0 ≤ f.exp
  · rw [if_pos he, toRat_of_exp_nonneg f he, ratTrunc]
    split
    · rw [Int.floor_intCast]
    · rw [Int.ceil_intCast]
  · rw [if_neg he, toRat_of_exp_neg f he]
    have hd : (0 : Int) ≤ ((2 ^ (-f.exp).toNat : Nat) : Int) := by positivity
    have hdc : (2 : Int) ^ (-f.exp).toNat = ((2 ^ (-f.exp).toNat : Nat) : Int) := by
      push_cast
      rfl
    rw [hdc]
    by_cases hn : 0 ≤ f.num
    · have hq : (0 : ℚ) ≤ (f.num : ℚ) / (((2 ^ (-f.exp).toNat : Nat) : Int) : ℚ) := by
        apply div_nonneg
        · exact_mod_cast hn
        · exact_mod_cast hd
      rw [ratTrunc, if_pos hq, Int.tdiv_eq_ediv hn hd]
      have hfl := Rat.floor_intCast_div_natCast f.num (2 ^ (-f.exp).toNat)
      rw [← hfl]
      norm_cast
    · push_neg at hn
      have hq : ¬(0 : ℚ) ≤ (f.num : ℚ) / (((2 ^ (-f.exp).toNat : Nat) : Int) : ℚ) := by
        rw [not_le]
        apply div_neg_of_neg_of_pos
        · exact_mod_cast hn
        · positivity
      rw [ratTrunc, if_neg hq]
      have hneg : f.num.tdiv ((2 ^ (-f.exp).toNat : Nat) : Int) =
          -((-f.num).tdiv ((2 ^ (-f.exp).toNat : Nat) : Int)) := by
        rw [Int.neg_tdiv, neg_neg]
      rw [hneg, Int.tdiv_eq_ediv (by omega) hd]
      have hfl := Rat.floor_intCast_div_natCast (-f.num) (2 ^ (-f.exp).toNat)
      have hceil : ⌈(f.num : ℚ) / (((2 ^ (-f.exp).toNat : Nat) : Int) : ℚ)⌉ =
          -⌊-((f.num : ℚ) / (((2 ^ (-f.exp).toNat : Nat) : Int) : ℚ))⌋ := by
        rw [Int.floor_neg, neg_neg]
      rw [hceil, ← hfl]
      congr 2
      push_cast
      ring

theorem pyInt_eq_floor_of_nonneg (f : F) (h : 0 ≤ f.num) : pyInt f = ⌊f.toRat⌋ := by
  rw [pyInt_eq_ratTrunc, ratTrunc, if_pos ((toRat_nonneg_iff f).mpr h)]

theorem ratTrunc_mono {p q : ℚ} (h : p ≤ q) : ratTrunc p ≤ ratTrunc q := by
  unfold ratTrunc
  split_ifs with hp hq hq'
  · exact Int.floor_le_floor h
  · exact absurd (le_trans hp h) hq
  · have h1 : ⌈p⌉ ≤ 0 := Int.ceil_le.mpr (by exact_mod_cast le_of_lt (not_le.mp hp))
    have h2 : (0 : ℤ) ≤ ⌊q⌋ := Int.floor_nonneg.mpr hq'
    omega
  · exact Int.ceil_le_ceil h

theorem pyInt_mono {x y : F} (h : F.ble x y = true) : pyInt x ≤ pyInt y := by
  rw [pyInt_eq_ratTrunc, pyInt_eq_ratTrunc]
  exact ratTrunc_mono ((ble_iff_toRat x y).mp h)

/-!
## Aggregate-level consequences
-/

/-- Whether an `Except` result is a success. -/
def isOkE {ε α : Type} : Except ε α → Bool
  | .ok _ => true
  | .error _ => false

theorem accSums_keys_iff {κ : Type} [DecidableEq κ] (key : Row → Option κ)
    (rows : List Row) (k : κ) :
    k ∈ (accSums key rows).map Prod.fst ↔ ∃ r ∈ rows, key r = some k := by
  rw [← lookupSum_isSome_iff_mem_keys, accSums_eq_foldl,
    lookupSum_isSome_foldl_accStep key k rows []]
  simp [lookupSum]

theorem accSums_sum_eq {κ : Type} [DecidableEq κ] (key : Row → Option κ)
    {rows : List Row} {k : κ} {s : F} (h : (k, s) ∈ accSums key rows) :
    s = groupFoldFrom key k F.zero rows := by
  have hnd := nodup_keys_foldl_accStep key rows [] (by simp)
  rw [accSums_eq_foldl] at h
  have hl := lookupSum_of_mem_nodup hnd h
  have hh := lookupSum_foldl_accStep key k rows [] s hl
  simpa [lookupSum] using hh

theorem length_insertBy {α : Type} (le : α → α → Bool) (x : α) :
    ∀ l : List α, (insertBy le x l).length = l.length + 1
  | [] => rfl
  | y :: ys => by
    unfold insertBy
    split
    · rfl
    · simp [length_insertBy le x ys]

theorem length_sortBy {α : Type} (le : α → α → Bool) :
    ∀ l : List α, (sortBy le l).length = l.length
  | [] => rfl
  | x :: xs => by
    simp [sortBy, length_insertBy, length_sortBy le xs]

theorem vge_total {κ : Type} (a b : κ × F) : vge a b = true ∨ vge b a = true := by
  unfold vge
  rcases ble_total b.2 a.2 with h | h
  · exact Or.inl h
  · exact Or.inr h

theorem vge_trans {κ : Type} {a b c : κ × F} (h1 : vge a b = true) (h2 : vge b c = true) :
    vge a c = true := ble_trans h2 h1

theorem songKeyOf_of_clean {r : Row} (h1 : r.track ≠ Cell.nan) (h2 : r.artist ≠ Cell.nan) :
    songKeyOf r = some (r.track, r.artist) := by
  unfold songKeyOf
  rw [if_neg]
  rintro (h | h)
  · exact h1 h
  · exact h2 h

theorem artistKeyOf_of_clean {r : Row} (h2 : r.artist ≠ Cell.nan) :
    artistKeyOf r = some r.artist := by
  unfold artistKeyOf
  rw [if_neg h2]

theorem accSums_filter_isSome {κ : Type} [DecidableEq κ] (key : Row → Option κ) :
    ∀ (rows : List Row) (acc : List (κ × F)),
      (rows.filter (fun r => (key r).isSome)).foldl (accStep key) acc =
        rows.foldl (accStep key) acc
  | [], _ => rfl
  | r :: rows, acc => by
    cases hk : key r with
    | none =>
      have hstep : accStep key acc r = acc := by simp [accStep, hk]
      rw [List.foldl_cons, hstep, List.filter_cons, if_neg (by simp [hk])]
      exact accSums_filter_isSome key rows acc
    | some k2 =>
      rw [List.foldl_cons, List.filter_cons, if_pos (by simp [hk]), List.foldl_cons]
      exact accSums_filter_isSome key rows (accStep key acc r)

theorem groupedSongs_ne_nil {rows : List Row} {r0 : Row} (hmem : r0 ∈ rows)
    (h1 : r0.track ≠ Cell.nan) (h2 : r0.artist ≠ Cell.nan) :
    groupedSongs rows ≠ [] := by
  intro hnil
  have hk : (r0.track, r0.artist) ∈ (accSums songKeyOf rows).map Prod.fst :=
    (accSums_keys_iff songKeyOf rows _).mpr ⟨r0, hmem, songKeyOf_of_clean h1 h2⟩
  have : accSums songKeyOf rows = [] := (sortBy_eq_nil_iff _ _).mp hnil
  rw [this] at hk
  exact absurd hk (by simp)

theorem groupedArtists_ne_nil {rows : List Row} {r0 : Row} (hmem : r0 ∈ rows)
    (h2 : r0.artist ≠ Cell.nan) :
    groupedArtists rows ≠ [] := by
  intro hnil
  have hk : r0.artist ∈ (accSums artistKeyOf rows).map Prod.fst :=
    (accSums_keys_iff artistKeyOf rows _).mpr ⟨r0, hmem, artistKeyOf_of_clean h2⟩
  have : accSums artistKeyOf rows = [] := (sortBy_eq_nil_iff _ _).mp hnil
  rw [this] at hk
  exact absurd hk (by simp)

theorem msRows_error_iff :
    ∀ rows0 : List Row0, isOkE (msRows rows0) = false ↔
      ∃ r ∈ rows0, isOkE (astypeFloatCell r.ms) = false
  | [] => by simp [msRows, isOkE]
  | r :: rows0 => by
    rw [msRows]
    cases hm : toMinutes r.ms with
    | error e =>
      have : isOkE (astypeFloatCell r.ms) = false := by
        unfold toMinutes at hm
        cases ha : astypeFloatCell r.ms with
        | error e2 => rfl
        | ok v => rw [ha] at hm; exact absurd hm (by simp [Except.map])
      constructor
      · intro _
        exact ⟨r, by simp, this⟩
      · intro _
        rfl
    | ok v =>
      have hok : isOkE (astypeFloatCell r.ms) = true := by
        unfold toMinutes at hm
        cases ha : astypeFloatCell r.ms with
        | error e2 => rw [ha] at hm; exact absurd hm (by simp [Except.map])
        | ok w => rfl
      cases hrec : msRows rows0 with
      | error e =>
        have h1 := (msRows_error_iff rows0).mp (by rw [hrec]; rfl)
        constructor
        · intro _
          obtain ⟨r2, hr2, hbad⟩ := h1
          exact ⟨r2, List.mem_cons_of_mem r hr2, hbad⟩
        · intro _
          rfl
      | ok rest =>
        have h1 : isOkE (msRows rows0) = true := by rw [hrec]; rfl
        constructor
        · intro h
          exact absurd h (by simp [isOkE])
        · rintro ⟨r2, hr2, hbad⟩
          have hbad' : isOkE (astypeFloatCell r2.ms) = false := hbad
          rcases List.mem_cons.mp hr2 with rfl | hr2'
          · rw [hok] at hbad'
            exact absurd hbad' (by simp)
          · have h2 := (msRows_error_iff rows0).mpr ⟨r2, hr2', hbad'⟩
            rw [h1] at h2
            exact absurd h2 (by simp)

theorem normalizeF_error_iff (f0 : Frame0) :
    isOkE (normalizeF f0) = false ↔
      (f0.hasMs = true ∧ ∃ r ∈ f0.rows, isOkE (astypeFloatCell r.ms) = false) := by
  unfold normalizeF
  by_cases hms : f0.hasMs
  · rw [if_pos hms]
    cases hrec : msRows f0.rows with
    | error e =>
      have h1 := (msRows_error_iff f0.rows).mp (by rw [hrec]; rfl)
      constructor
      · intro _
        exact ⟨hms, h1⟩
      · intro _
        rfl
    | ok rest =>
      have h1 : isOkE (msRows f0.rows) = true := by rw [hrec]; rfl
      constructor
      · intro h
        exact absurd h (by simp [Except.map, isOkE])
      · rintro ⟨_, hex⟩
        have h2 := (msRows_error_iff f0.rows).mpr hex
        rw [h1] at h2
        exact absurd h2 (by simp)
  · rw [if_neg hms]
    simp only [isOkE]
    constructor
    · intro h
      exact absurd h (by simp)
    · rintro ⟨hms', _⟩
      exact absurd hms' (by simpa using hms)

theorem foldl_fadd_num_nonneg :
    ∀ (rows : List Row) (acc : F), 0 ≤ acc.num → (∀ r ∈ rows, 0 ≤ (minVal r).num) →
      0 ≤ (rows.foldl (fun acc r => fadd acc (minVal r)) acc).num
  | [], acc, hacc, _ => hacc
  | r :: rows, acc, hacc, hall => by
    rw [List.foldl_cons]
    exact foldl_fadd_num_nonneg rows (fadd acc (minVal r))
      (fadd_num_nonneg hacc (hall r (by simp)))
      (fun r2 h2 => hall r2 (List.mem_cons_of_mem r h2))

/-!
## The claims
-/

/-- C1 (counterexample): for the three plays 882003 ms, 84902 ms and
53095 ms — exactly 1020000 ms, i.e. 17 minutes — `total_minutes` returns
16, not the floor of the exact sum of `msPlayed/60000`, which is 17:
each quotient is rounded to a double and the running double sum lands
just below 17 (16.999999999999996), which `int()` truncates to 16. -/
theorem c1_counterexample :
    analyzeTotal exRound = Except.ok 16 ∧
      ⌊((882003 : ℚ) + 84902 + 53095) / 60000⌋ = 17 := by
  constructor
  · decide
  · norm_num

/-- C1 (amended): `total_minutes` returns the truncation of the
double-precision sequential sum of the per-event minutes (missing
`msPlayed` contributing 0), which for non-negative events equals the
floor of that double sum — but only coincides with the floor of the
exact rational sum when rounding does not cross an integer; on the empty
sequence it returns 0. -/
theorem c1_total_minutes_amended :
    (∀ f : Frame, (∀ r ∈ f.rows, F.ble F.zero (minVal r) = true) →
      total_minutes f = ⌊(floatSumMinutes f.rows).toRat⌋) ∧
      ∀ b1 b2 : Bool, total_minutes ⟨b1, b2, []⟩ = 0 := by
  constructor
  · intro f hall
    have hnum : ∀ r ∈ f.rows, 0 ≤ (minVal r).num := by
      intro r hr
      have := (ble_iff_toRat F.zero (minVal r)).mp (hall r hr)
      rw [toRat_zero] at this
      exact (toRat_nonneg_iff (minVal r)).mp this
    have hsum : 0 ≤ (floatSumMinutes f.rows).num :=
      foldl_fadd_num_nonneg f.rows F.zero (by simp [F.zero]) hnum
    exact pyInt_eq_floor_of_nonneg _ hsum
  · intro b1 b2
    rfl

/-- Witness for the amended C1 at a one-row frame holding one minute. -/
theorem c1_total_minutes_amended_witness :
    total_minutes ⟨true, true, [⟨Cell.str "A", Cell.str "X", some ⟨4503599627370496, -52⟩⟩]⟩ =
      ⌊(floatSumMinutes [⟨Cell.str "A", Cell.str "X", some ⟨4503599627370496, -52⟩⟩]).toRat⌋ :=
  c1_total_minutes_amended.1
    ⟨true, true, [⟨Cell.str "A", Cell.str "X", some ⟨4503599627370496, -52⟩⟩]⟩ (by decide)

/-- C2 (counterexample): on two records where the second lacks
`artistName`, the artist grouping has only the key `"X"` — the NaN
artist key of the second record is dropped by `groupby` (`dropna=True`),
so the grouped key set is NOT the set of artist values present in the
input, and the dropped record's minute is missing from every group sum. -/
theorem c2_counterexample :
    (spotifyInit exDropKey).map (fun f => f.rows.map Row.artist) =
      Except.ok [Cell.str "X", Cell.nan] ∧
    (spotifyInit exDropKey).map (fun f => (groupedArtists f.rows).map Prod.fst) =
      Except.ok [Cell.str "X"] ∧
    (spotifyInit exDropKey).map (fun f => (groupedArtists f.rows).map (fun p => pyInt p.2)) =
      Except.ok [1] := by
  refine ⟨?_, ?_, ?_⟩ <;> decide

/-- C2 (amended): for sequences in which every record carries both name
values, the grouped key sets are exactly the key sets present in the
input and each group's sum is the (double) sum over its matching
records; records with a missing (NaN) grouping key are dropped. -/
theorem c2_grouped_invariant_amended :
    ∀ rows : List Row, (∀ r ∈ rows, r.track ≠ Cell.nan ∧ r.artist ≠ Cell.nan) →
      (∀ k : Cell × Cell,
        (k ∈ (groupedSongs rows).map Prod.fst ↔ ∃ r ∈ rows, (r.track, r.artist) = k)) ∧
      (∀ p ∈ groupedSongs rows, p.2 = groupSumSong rows p.1) ∧
      (∀ k : Cell, (k ∈ (groupedArtists rows).map Prod.fst ↔ ∃ r ∈ rows, r.artist = k)) ∧
      (∀ p ∈ groupedArtists rows, p.2 = groupSumArtist rows p.1) := by
  intro rows hclean
  have hmemS : ∀ p : (Cell × Cell) × F, p ∈ groupedSongs rows ↔ p ∈ accSums songKeyOf rows :=
    fun p => mem_sortBy _ p _
  have hmemA : ∀ p : Cell × F, p ∈ groupedArtists rows ↔ p ∈ accSums artistKeyOf rows :=
    fun p => mem_sortBy _ p _
  refine ⟨?_, ?_, ?_, ?_⟩
  · intro k
    have hkeys : k ∈ (groupedSongs rows).map Prod.fst ↔
        k ∈ (accSums songKeyOf rows).map Prod.fst := by
      simp only [List.mem_map]
      constructor
      · rintro ⟨p, hp, hpk⟩
        exact ⟨p, (hmemS p).mp hp, hpk⟩
      · rintro ⟨p, hp, hpk⟩
        exact ⟨p, (hmemS p).mpr hp, hpk⟩
    rw [hkeys, accSums_keys_iff]
    constructor
    · rintro ⟨r, hr, hkey⟩
      rw [songKeyOf_of_clean (hclean r hr).1 (hclean r hr).2] at hkey
      exact ⟨r, hr, by injection hkey⟩
    · rintro ⟨r, hr, hkey⟩
      exact ⟨r, hr, by rw [songKeyOf_of_clean (hclean r hr).1 (hclean r hr).2, hkey]⟩
  · rintro ⟨k, s⟩ hp
    exact accSums_sum_eq songKeyOf ((hmemS _).mp hp)
  · intro k
    have hkeys : k ∈ (groupedArtists rows).map Prod.fst ↔
        k ∈ (accSums artistKeyOf rows).map Prod.fst := by
      simp only [List.mem_map]
      constructor
      · rintro ⟨p, hp, hpk⟩
        exact ⟨p, (hmemA p).mp hp, hpk⟩
      · rintro ⟨p, hp, hpk⟩
        exact ⟨p, (hmemA p).mpr hp, hpk⟩
    rw [hkeys, accSums_keys_iff]
    constructor
    · rintro ⟨r, hr, hkey⟩
      rw [artistKeyOf_of_clean (hclean r hr).2] at hkey
      exact ⟨r, hr, by injection hkey⟩
    · rintro ⟨r, hr, hkey⟩
      exact ⟨r, hr, by rw [artistKeyOf_of_clean (hclean r hr).2, hkey]⟩
  · rintro ⟨k, s⟩ hp
    exact accSums_sum_eq artistKeyOf ((hmemA _).mp hp)

/-- Witness for the amended C2 at a two-row sequence with two songs of
one artist. -/
theorem c2_grouped_invariant_amended_witness :
    (∀ k : Cell × Cell,
      (k ∈ (groupedSongs [⟨Cell.str "A", Cell.str "X", some ⟨4503599627370496, -52⟩⟩,
          ⟨Cell.str "B", Cell.str "X", some ⟨4503599627370496, -53⟩⟩]).map Prod.fst ↔
        ∃ r ∈ [⟨Cell.str "A", Cell.str "X", some ⟨4503599627370496, -52⟩⟩,
          ⟨Cell.str "B", Cell.str "X", some (⟨4503599627370496, -53⟩ : F)⟩],
          (Row.track r, Row.artist r) = k)) ∧
    (∀ p ∈ groupedSongs [⟨Cell.str "A", Cell.str "X", some ⟨4503599627370496, -52⟩⟩,
        ⟨Cell.str "B", Cell.str "X", some ⟨4503599627370496, -53⟩⟩],
      p.2 = groupSumSong [⟨Cell.str "A", Cell.str "X", some ⟨4503599627370496, -52⟩⟩,
        ⟨Cell.str "B", Cell.str "X", some ⟨4503599627370496, -53⟩⟩] p.1) ∧
    (∀ k : Cell,
      (k ∈ (groupedArtists [⟨Cell.str "A", Cell.str "X", some ⟨4503599627370496, -52⟩⟩,
          ⟨Cell.str "B", Cell.str "X", some ⟨4503599627370496, -53⟩⟩]).map Prod.fst ↔
        ∃ r ∈ [⟨Cell.str "A", Cell.str "X", some ⟨4503599627370496, -52⟩⟩,
          ⟨Cell.str "B", Cell.str "X", some (⟨4503599627370496, -53⟩ : F)⟩], Row.artist r = k)) ∧
    (∀ p ∈ groupedArtists [⟨Cell.str "A", Cell.str "X", some ⟨4503599627370496, -52⟩⟩,
        ⟨Cell.str "B", Cell.str "X", some ⟨4503599627370496, -53⟩⟩],
      p.2 = groupSumArtist [⟨Cell.str "A", Cell.str "X", some ⟨4503599627370496, -52⟩⟩,
        ⟨Cell.str "B", Cell.str "X", some ⟨4503599627370496, -53⟩⟩] p.1) :=
  c2_grouped_invariant_amended
    [⟨Cell.str "A", Cell.str "X", some ⟨4503599627370496, -52⟩⟩,
      ⟨Cell.str "B", Cell.str "X", some ⟨4503599627370496, -53⟩⟩] (by decide)

/-- C3 (confirmed): the concrete scenario of the spec, end to end from
the raw JSON buffer: total 2, top song `(A, X, 2)`, top artist `(X, 2)`,
top-3 `[(A, X, 2), (B, X, 0)]` in that order. -/
theorem c3_concrete_scenario :
    analyzeTotal exScenario = Except.ok 2 ∧
    analyzeTopSong exScenario = Except.ok (some ⟨Cell.str "A", Cell.str "X", 2⟩) ∧
    analyzeTopArtist exScenario = Except.ok (some ⟨Cell.str "X", 2⟩) ∧
    analyzeTop3 exScenario 3 =
      Except.ok [⟨Cell.str "A", Cell.str "X", 2⟩, ⟨Cell.str "B", Cell.str "X", 0⟩] := by
  refine ⟨?_, ?_, ?_, ?_⟩ <;> decide

/-- C4 (counterexample): the buffer `[1,2,3]` is neither a JSON array of
objects nor newline-delimited JSON objects, yet the parse succeeds —
`pd.read_json` accepts any frame-shaped JSON, so the parser does NOT
fail exactly on the two specified shapes (and the failure it does raise
is a plain `ValueError`, no `MalformedInputError` type exists). -/
theorem c4_counterexample :
    isOkE (spotifyInit exScalars) = true ∧ validBatchSpec exScalars = false ∧
      validLinesSpec exScalars = false := by
  refine ⟨?_, ?_, ?_⟩ <;> decide

/-- C4 (amended): the parser first attempts a whole-buffer
`pd.read_json`, whose accepted language includes every spec batch
document but is strictly larger; only if that read fails does it attempt
the line-joined fallback, and the read stage fails exactly when both
reads fail (the minutes conversion can still fail afterwards, outside
the `try`). -/
theorem c4_parse_fallback_amended :
    (∀ s : String, validBatchSpec s = true → isOkE (readBatch s) = true) ∧
    (∀ s : String, isOkE (initDF s) = false ↔
      (isOkE (readBatch s) = false ∧ isOkE (readLinesFallback s) = false)) := by
  constructor
  · intro s h
    unfold validBatchSpec at h
    unfold readBatch
    cases hp : parseJsonTop s with
    | none => rw [hp] at h; exact absurd h (by simp)
    | some v =>
      rw [hp] at h
      cases v with
      | arr vs =>
        dsimp only at h ⊢
        unfold readJsonVal
        dsimp only
        rw [if_pos h]
        rfl
      | null => exact absurd h (by simp)
      | jbool b => exact absurd h (by simp)
      | num m e => exact absurd h (by simp)
      | str s2 => exact absurd h (by simp)
      | obj fields => exact absurd h (by simp)
  · intro s
    unfold initDF
    cases hb : readBatch s with
    | ok f => simp [isOkE]
    | error e => simp [isOkE]

/-- Witness for the amended C4 at the concrete scenario batch buffer. -/
theorem c4_parse_fallback_amended_witness : isOkE (readBatch exScenario) = true :=
  c4_parse_fallback_amended.1 exScenario (by decide)

/-- C5 (counterexample): a record whose `msPlayed` is the non-numeric
JSON value `"60000"` (a string) does not fail the parse — the string is
silently coerced to the float 60000.0 and the record counts one minute. -/
theorem c5_counterexample :
    isOkE (spotifyInit exStrMs) = true ∧ analyzeTotal exStrMs = Except.ok 1 := by
  refine ⟨?_, ?_⟩ <;> decide

/-- C5 (amended): a missing `msPlayed` yields a missing (NaN) minutes
value — which behaves as `0.0` in every sum — and the whole parse fails
on a present `msPlayed` exactly when the value cannot be coerced by
`float()`: numeric strings and booleans are silently coerced; only
non-numeric strings and nested values are fatal. -/
theorem c5_mins_conversion_amended :
    (∀ f0 : Frame0, isOkE (normalizeF f0) = false ↔
      (f0.hasMs = true ∧ ∃ r ∈ f0.rows, isOkE (astypeFloatCell r.ms) = false)) ∧
    (∀ s : String, isOkE (astypeFloatCell (Cell.str s)) = false ↔ pyFloat? s.data = none) ∧
    astypeFloatCell Cell.nan = Except.ok none ∧
    (∀ m e : Int, astypeFloatCell (Cell.num m e) = Except.ok (some (floatOfDec m e))) := by
  refine ⟨normalizeF_error_iff, ?_, rfl, fun m e => rfl⟩
  intro s
  unfold astypeFloatCell
  cases hp : pyFloat? s.data with
  | none => simp [isOkE, hp]
  | some p => simp [isOkE, hp]

/-- C6 (counterexample): on two records where the first lacks
`trackName`, the first row's track cell is NaN, not the empty string,
and the record IS dropped from the song grouping: though both records
play one minute of artist `X`, `top_3_songs` reports a single group
`(A, X, 1)`. -/
theorem c6_counterexample :
    (spotifyInit exMissingTrack).map (fun f => f.rows.map Row.track) =
      Except.ok [Cell.nan, Cell.str "A"] ∧
    analyzeTop3 exMissingTrack 3 = Except.ok [⟨Cell.str "A", Cell.str "X", 1⟩] := by
  refine ⟨?_, ?_⟩ <;> decide

/-- C6 (amended): a record missing `trackName` gets a NaN cell (when the
column exists at all), and rows whose grouping key holds a NaN are
exactly the rows the groupings ignore — grouping the key-complete
subsequence gives the same grouped result. -/
theorem c6_missing_names_amended :
    (∀ fields : List (String × JVal), lookupLast kTrackName fields = none →
      (rowOfVal (JVal.obj fields)).track = Cell.nan) ∧
    (∀ rows : List Row,
      groupedSongs rows = groupedSongs (rows.filter (fun r => (songKeyOf r).isSome))) ∧
    (∀ rows : List Row,
      groupedArtists rows = groupedArtists (rows.filter (fun r => (artistKeyOf r).isSome))) := by
  refine ⟨?_, ?_, ?_⟩
  · intro fields h
    show fieldCell kTrackName fields = Cell.nan
    unfold fieldCell
    rw [h]
  · intro rows
    unfold groupedSongs
    rw [accSums_eq_foldl, accSums_eq_foldl, accSums_filter_isSome songKeyOf rows []]
  · intro rows
    unfold groupedArtists
    rw [accSums_eq_foldl, accSums_eq_foldl, accSums_filter_isSome artistKeyOf rows []]

/-- Witness for the amended C6 at a record carrying only `artistName`. -/
theorem c6_missing_names_amended_witness :
    (rowOfVal (JVal.obj [("artistName", JVal.str "X")])).track = Cell.nan :=
  c6_missing_names_amended.1 [("artistName", JVal.str "X")] rfl

/-- C7 (counterexample): the upload `[{"msPlayed":60000}]` parses into a
non-empty frame with no name columns, and `top_song` raises (`KeyError`
on `groupby(["trackName", "artistName"])`) instead of returning a value
— the Aggregator is not exception-free. -/
theorem c7_counterexample :
    analyzeTopSong exNoNames = Except.error () ∧ isOkE (spotifyInit exNoNames) = true ∧
      (spotifyInit exNoNames).map (fun f => f.rows.length) = Except.ok 1 := by
  refine ⟨?_, ?_, ?_⟩ <;> decide

/-- C7 (amended): the queries are exception-free on frames that carry
both name columns and whose rows all hold both name values (`top_song`
and `top_artist` additionally raise `IndexError` when every row is
dropped from the grouping, and grouped queries raise `KeyError` when a
name column is absent from a non-empty frame); on an empty frame the
boundary values hold: total 0, `None`, `None`, `[]`. -/
theorem c7_queries_amended :
    (∀ (f : Frame) (n : Nat), f.hasTrack = true → f.hasArtist = true →
      (∀ r ∈ f.rows, r.track ≠ Cell.nan ∧ r.artist ≠ Cell.nan) →
      isOkE (top_song f) = true ∧ isOkE (top_artist f) = true ∧
        isOkE (top_3_songs f n) = true) ∧
    (∀ b1 b2 : Bool, total_minutes ⟨b1, b2, []⟩ = 0 ∧
      top_song ⟨b1, b2, []⟩ = Except.ok none ∧
      top_artist ⟨b1, b2, []⟩ = Except.ok none ∧
      top_3_songs ⟨b1, b2, []⟩ = Except.ok []) := by
  constructor
  · intro f n hT hA hclean
    by_cases hemp : f.rows.isEmpty
    · unfold top_song top_artist top_3_songs
      rw [if_pos hemp, if_pos hemp, if_pos hemp]
      exact ⟨rfl, rfl, rfl⟩
    · have hne : f.rows ≠ [] := by
        intro hh
        rw [hh] at hemp
        exact hemp rfl
      obtain ⟨r0, hr0⟩ := List.exists_mem_of_ne_nil f.rows hne
      have hcols : (f.hasTrack && f.hasArtist) = true := by rw [hT, hA]; rfl
      have hgs : groupedSongs f.rows ≠ [] :=
        groupedSongs_ne_nil hr0 (hclean r0 hr0).1 (hclean r0 hr0).2
      have hga : groupedArtists f.rows ≠ [] :=
        groupedArtists_ne_nil hr0 (hclean r0 hr0).2
      have hss : sortedSongGroups f.rows ≠ [] := by
        intro hh
        exact hgs ((sortBy_eq_nil_iff _ _).mp hh)
      have hsa : sortedArtistGroups f.rows ≠ [] := by
        intro hh
        exact hga ((sortBy_eq_nil_iff _ _).mp hh)
      unfold top_song top_artist top_3_songs
      rw [if_neg hemp, if_neg hemp, if_neg hemp, if_pos hcols, if_pos hcols,
        if_pos (by rw [hA])]
      refine ⟨?_, ?_, rfl⟩
      · unfold topSongRows
        rw [if_neg hemp]
        cases hm : sortedSongGroups f.rows with
        | nil => exact absurd hm hss
        | cons g t => rfl
      · unfold topArtistRows
        rw [if_neg hemp]
        cases hm : sortedArtistGroups f.rows with
        | nil => exact absurd hm hsa
        | cons g t => rfl
  · intro b1 b2
    exact ⟨rfl, rfl, rfl, rfl⟩

/-- Witness for the amended C7 at a clean one-row frame. -/
theorem c7_queries_amended_witness :
    isOkE (top_song ⟨true, true, [⟨Cell.str "A", Cell.str "X", some ⟨4503599627370496, -52⟩⟩]⟩) = true ∧
    isOkE (top_artist ⟨true, true, [⟨Cell.str "A", Cell.str "X", some ⟨4503599627370496, -52⟩⟩]⟩) = true ∧
    isOkE (top_3_songs ⟨true, true, [⟨Cell.str "A", Cell.str "X", some ⟨4503599627370496, -52⟩⟩]⟩ 3) = true :=
  c7_queries_amended.1
    ⟨true, true, [⟨Cell.str "A", Cell.str "X", some ⟨4503599627370496, -52⟩⟩]⟩ 3
    rfl rfl (by decide)

/-- C8 (counterexample): two one-minute plays, `("B","X")` first and
`("A","X")` second, tie for the maximum; the spec's input-order policy
selects `("B","X")` (its first record appears earlier), but the code
returns `("A","X")`: `groupby(sort=True)` orders groups by key and the
descending value sort keeps that order on ties. -/
theorem c8_counterexample :
    analyzeTopSong exTie = Except.ok (some ⟨Cell.str "A", Cell.str "X", 1⟩) ∧
    (spotifyInit exTie).map (fun f => specInputOrderTopSongKey f.rows) =
      Except.ok (some (Cell.str "B", Cell.str "X")) := by
  refine ⟨?_, ?_⟩ <;> decide

theorem keyLePair_total (a b : (Cell × Cell) × F) :
    keyLe a.1 b.1 = true ∨ keyLe b.1 a.1 = true := keyLe_total a.1 b.1

theorem keyLePair_trans {a b c : (Cell × Cell) × F} (h1 : keyLe a.1 b.1 = true)
    (h2 : keyLe b.1 c.1 = true) : keyLe a.1 c.1 = true := keyLe_trans h1 h2

/-- C8 (amended): when `top_song` returns a result, it is a group of
maximum summed minutes whose key is least in the lexicographic key
order among all tying groups — the tie-break is ascending key order,
not input order (deterministic for the small group counts where numpy's
sort is stable). -/
theorem c8_tiebreak_amended :
    ∀ (rows : List Row) (r : SongResult), topSongRows rows = Except.ok (some r) →
      ∃ p ∈ groupedSongs rows, r = mkSongResult p ∧
        ∀ q ∈ groupedSongs rows, F.ble q.2 p.2 = true ∧
          (F.ble p.2 q.2 = true → keyLe p.1 q.1 = true) := by
  intro rows r h
  unfold topSongRows at h
  by_cases hemp : rows.isEmpty
  · rw [if_pos hemp] at h
    exact absurd h (by simp)
  · rw [if_neg hemp] at h
    cases hm : sortedSongGroups rows with
    | nil => rw [hm] at h; exact absurd h (by simp)
    | cons g t =>
      rw [hm] at h
      have hr : mkSongResult g = r := by
        injection h with h2
        injection h2
      have hhead : (sortBy vge (groupedSongs rows)).head? = some g := by
        show (sortedSongGroups rows).head? = some g
        rw [hm]
        rfl
      have hfm : firstMaxBy vge (groupedSongs rows) = some g := by
        rw [← head_sortBy vge (groupedSongs rows)]
        exact hhead
      have hpair : List.Pairwise (fun p q : (Cell × Cell) × F => keyLe p.1 q.1 = true)
          (groupedSongs rows) :=
        pairwise_sortBy keyLePair_total keyLePair_trans (accSums songKeyOf rows)
      refine ⟨g, firstMaxBy_mem vge hfm, hr.symm, ?_⟩
      intro q hq
      have hmax := firstMaxBy_isMax vge_total vge_trans hfm
      constructor
      · exact hmax q hq
      · intro hpq
        have hqmax : ∀ y ∈ groupedSongs rows, vge q y = true := by
          intro y hy
          exact ble_trans (hmax y hy) hpq
        rcases firstMaxBy_earliest hpair hfm q hq hqmax with rfl | hR
        · exact keyLe_refl _
        · exact hR

/-- Witness for the amended C8 at a one-row sequence. -/
theorem c8_tiebreak_amended_witness :
    ∃ p ∈ groupedSongs [⟨Cell.str "A", Cell.str "X", some ⟨4503599627370496, -52⟩⟩],
      (⟨Cell.str "A", Cell.str "X", 1⟩ : SongResult) = mkSongResult p ∧
        ∀ q ∈ groupedSongs [⟨Cell.str "A", Cell.str "X", some ⟨4503599627370496, -52⟩⟩],
          F.ble q.2 p.2 = true ∧ (F.ble p.2 q.2 = true → keyLe p.1 q.1 = true) :=
  c8_tiebreak_amended [⟨Cell.str "A", Cell.str "X", some ⟨4503599627370496, -52⟩⟩]
    ⟨Cell.str "A", Cell.str "X", 1⟩ (by decide)

/-- C9 (confirmed): `top_3_songs` reports the groups in descending order
of summed minutes (hence of reported integer minutes), returns
`min n (number of groups)` rows — all groups, unpadded, when fewer than
`n` exist — and `n` defaults to 3. -/
theorem c9_top_n_songs :
    ∀ (rows : List Row) (n : Nat),
      (top3Rows rows n).length = min n (groupedSongs rows).length ∧
      List.Pairwise (fun p q => F.ble q.2 p.2 = true) (sortedSongGroups rows) ∧
      List.Pairwise (fun a b => b.mins ≤ a.mins) (top3Rows rows n) ∧
      top3Rows rows = top3Rows rows 3 := by
  intro rows n
  have hpw : List.Pairwise (fun p q : (Cell × Cell) × F => vge p q = true)
      (sortedSongGroups rows) :=
    pairwise_sortBy vge_total vge_trans (groupedSongs rows)
  refine ⟨?_, hpw, ?_, rfl⟩
  · unfold top3Rows
    rw [List.length_map, List.length_take]
    show min n (sortBy vge (groupedSongs rows)).length = _
    rw [length_sortBy]
  · unfold top3Rows
    rw [List.pairwise_map]
    have htake : List.Pairwise (fun p q : (Cell × Cell) × F => vge p q = true)
        ((sortedSongGroups rows).take n) :=
      List.Pairwise.sublist (List.take_sublist n _) hpw
    exact htake.imp (fun hvge => pyInt_mono hvge)

/-- C10 (counterexample): on one record whose name fields are JSON
`null`, the frame is non-empty with both name columns present, yet
`top_song` raises (`IndexError`: every row is dropped from the grouping
and `.iloc[0]` hits an empty frame) while `top_3_songs` returns `[]` —
so `top_song` is not the head of `top_n_songs` on every non-empty
sequence. -/
theorem c10_counterexample :
    analyzeTopSong exNullNames = Except.error () ∧
    analyzeTop3 exNullNames 3 = Except.ok [] ∧
    (spotifyInit exNullNames).map (fun f => f.rows.length) = Except.ok 1 := by
  refine ⟨?_, ?_, ?_⟩ <;> decide

/-- C10 (amended): whenever `top_song` succeeds with a result (that is,
some record survives the grouping), that result is the first element of
`top_n_songs` for every `n ≥ 1` — both are read off the same sorted
grouped frame. -/
theorem c10_top_song_head_amended :
    ∀ (rows : List Row) (n : Nat) (r : SongResult), 1 ≤ n →
      topSongRows rows = Except.ok (some r) → ∃ t, top3Rows rows n = r :: t := by
  intro rows n r hn h
  unfold topSongRows at h
  by_cases hemp : rows.isEmpty
  · rw [if_pos hemp] at h
    exact absurd h (by simp)
  · rw [if_neg hemp] at h
    cases hm : sortedSongGroups rows with
    | nil => rw [hm] at h; exact absurd h (by simp)
    | cons g t =>
      rw [hm] at h
      have hr : mkSongResult g = r := by
        injection h with h2
        injection h2
      obtain ⟨m, rfl⟩ : ∃ m, n = m + 1 := ⟨n - 1, by omega⟩
      refine ⟨(t.take m).map mkSongResult, ?_⟩
      unfold top3Rows
      rw [hm, List.take_succ_cons, List.map_cons, hr]

/-- Witness for the amended C10 at a one-row sequence with `n = 2`. -/
theorem c10_top_song_head_amended_witness :
    ∃ t, top3Rows [⟨Cell.str "B", Cell.str "Y", some ⟨4503599627370496, -53⟩⟩] 2 =
      (⟨Cell.str "B", Cell.str "Y", 0⟩ : SongResult) :: t :=
  c10_top_song_head_amended [⟨Cell.str "B", Cell.str "Y", some ⟨4503599627370496, -53⟩⟩] 2
    ⟨Cell.str "B", Cell.str "Y", 0⟩ (by omega) (by decide)
